import Mathlib

/-!
# Verification of the invoice-manager terminal application

A shallow embedding, in Lean 4, of the parts of the `invoice-manager-rs`
repository that the specification's claims are about:

* the data model (`src/models/*.rs`), with Rust `String` modelled as
  `List Char`, `i32` as `Int`, `u32`/indices as `Nat`, and `f64` as the
  type `F64` (a finite value held as an exact rational, an infinity, or
  NaN), parsed from text with correct IEEE binary64 rounding;
* the database rows and the cascading-delete transactions
  (`src/db/mod.rs`): the database is a record of row lists, a transaction
  is a fuel-counted sequence of statements where running out of fuel
  models an injected statement failure, and an uncommitted transaction
  rolls back (sqlx drops an uncommitted transaction, and every statement
  in the source uses `?`, which aborts the whole function);
* the date-input component (`src/ui/components/date_input.rs`);
* the wizard validation functions (`src/ui/profile_wizard.rs`,
  `client_wizard.rs`, `project_wizard.rs`, `invoice_wizard.rs`);
* the invoice wizard's line-item editor and rate buffer
  (`src/ui/invoice_wizard.rs`);
* the email overlay (`src/ui/email_wizard.rs`) together with a file-system
  model (a list of paths) for its generated-artifact cleanup;
* the Navigator's direct project-delete path (`src/main.rs`).

Chrono's `NaiveDate` is modelled as a year/month/day record;
`NaiveDate::from_ymd_opt` validates against the Gregorian calendar, which
for months 1..12 coincides with the repository's own `days_in_month`
helper (chrono's ±262000-year limit is irrelevant in the 1900–2100 range
the claims quantify over).
-/

namespace InvoiceManager

/-- Rust `String`, modelled as its sequence of characters. -/
abbrev Str := List Char

/-- Calendar date, modelling `chrono::NaiveDate` (year `i32`, month and
day `u32`). -/
structure Date where
  year : Int
  month : Nat
  day : Nat
deriving DecidableEq, Repr

/-- `days_in_month` from `src/ui/components/date_input.rs` (the default
arm returns 30). For months 1..12 this is exactly the Gregorian rule, so
it also serves as the calendar inside the `from_ymd_opt` model. -/
def daysInMonth (year : Int) (month : Nat) : Nat :=
  match month with
  | 1 | 3 | 5 | 7 | 8 | 10 | 12 => 31
  | 4 | 6 | 9 | 11 => 30
  | 2 => if (year % 4 = 0 ∧ year % 100 ≠ 0) ∨ year % 400 = 0 then 29 else 28
  | _ => 30

/-- `chrono::NaiveDate::from_ymd_opt`: `some` exactly on valid Gregorian
dates. -/
def fromYmdOpt (year : Int) (month day : Nat) : Option Date :=
  if 1 ≤ month ∧ month ≤ 12 ∧ 1 ≤ day ∧ day ≤ daysInMonth year month then
    some ⟨year, month, day⟩
  else
    none

/-- IEEE binary64 (`f64`) values as the program stores them: a finite
value (the constructions in this file only ever produce representable
doubles, held as exact rationals), one of the two infinities, or NaN.
A signed zero is collapsed to `finite 0`: the claims observe parse
success and `f64` ordering, which cannot tell `-0.0` from `0.0`. -/
inductive F64 where
  | finite (val : ℚ)
  | inf
  | negInf
  | nan
deriving DecidableEq, Repr

/-- The `f64` comparison `x > 0.0` (false at NaN). -/
def F64.gtZero : F64 → Bool
  | .finite q => decide (0 < q)
  | .inf => true
  | .negInf => false
  | .nan => false

/-- `models::Profile` (`src/models/profile.rs`). -/
structure Profile where
  id : Int
  name : Str
  phonenumber : Str
  address : Option Str
  email : Str
  bank_name : Str
  bank_account_number : Str
  bank_routing_number : Str
deriving DecidableEq, Repr

/-- `models::Client` (`src/models/client.rs`). -/
structure Client where
  id : Int
  name : Str
  phone : Str
  address : Option Str
  email : Str
  profile_id : Int
deriving DecidableEq, Repr

/-- `models::Project` (`src/models/project.rs`). -/
structure Project where
  id : Int
  client_id : Int
  name : Str
  start_date : Date
  end_date : Option Date
deriving DecidableEq, Repr

/-- `models::Invoice` (`src/models/invoice.rs`). -/
structure Invoice where
  id : Int
  project_id : Int
  number : Int
  submit_date : Date
  due_date : Date
  rate : F64
  status : Str
deriving DecidableEq, Repr

/-- `models::InvoiceLineItem` (`src/models/invoice_line_item.rs`). -/
structure InvoiceLineItem where
  id : Int
  invoice_id : Int
  description : Str
  hours : F64
deriving DecidableEq, Repr

/-- The visible database state: one list of rows per table touched by the
delete paths. -/
structure DB where
  profiles : List Profile
  clients : List Client
  projects : List Project
  invoices : List Invoice
  lineItems : List InvoiceLineItem
deriving DecidableEq, Repr

/-! ## Individual SQL statements of the delete paths (`src/db/mod.rs`)

Each `DELETE` statement becomes a filter keeping exactly the rows the SQL
`WHERE` clause does not match. -/

/-- `DELETE FROM invoice_line_item WHERE invoice_id IN
(SELECT id FROM invoices WHERE project_id = $1)` — the subquery reads the
invoices still present at execution time. -/
def delLineItemsByProject (db : DB) (pid : Int) : DB :=
  let doomed : InvoiceLineItem → Bool := fun li =>
    db.invoices.any (fun i => decide (i.project_id = pid) && decide (i.id = li.invoice_id))
  { db with lineItems := db.lineItems.filter (fun li => !doomed li) }

/-- `DELETE FROM invoices WHERE project_id = $1`. -/
def delInvoicesByProject (db : DB) (pid : Int) : DB :=
  { db with invoices := db.invoices.filter (fun i => !decide (i.project_id = pid)) }

/-- `DELETE FROM projects WHERE client_id = $1`. -/
def delProjectsByClient (db : DB) (cid : Int) : DB :=
  { db with projects := db.projects.filter (fun p => !decide (p.client_id = cid)) }

/-- `DELETE FROM projects WHERE id = $1` (`Database::delete_project`). -/
def deleteProject (db : DB) (id : Int) : DB :=
  { db with projects := db.projects.filter (fun p => !decide (p.id = id)) }

/-- `DELETE FROM clients WHERE profile_id = $1`. -/
def delClientsByProfile (db : DB) (pid : Int) : DB :=
  { db with clients := db.clients.filter (fun c => !decide (c.profile_id = pid)) }

/-- `DELETE FROM clients WHERE id = $1`. -/
def delClientRow (db : DB) (id : Int) : DB :=
  { db with clients := db.clients.filter (fun c => !decide (c.id = id)) }

/-- `DELETE FROM profiles WHERE id = $1`. -/
def delProfileRow (db : DB) (id : Int) : DB :=
  { db with profiles := db.profiles.filter (fun p => !decide (p.id = id)) }

/-! ## Success path of the cascading deletes

These functions follow the statement order of `Database::delete_profile`
and `Database::delete_client` exactly: for each client, for each of its
projects (fetched before any of them is deleted), delete the project's
invoices' line items, then the invoices; then the client's projects; then
the profile's clients; finally the root row. -/

/-- The per-project body of both cascade loops: line items of the
project's invoices first, then the invoices. -/
def deleteProjectContents (db : DB) (pid : Int) : DB :=
  delInvoicesByProject (delLineItemsByProject db pid) pid

/-- The per-client body shared by `delete_profile` and `delete_client`:
fetch the client's projects, clear each project's invoices and line
items, then delete the projects themselves. -/
def processClientTree (db : DB) (cid : Int) : DB :=
  let ps := db.projects.filter (fun p => decide (p.client_id = cid))
  let db1 := ps.foldl (fun acc p => deleteProjectContents acc p.id) db
  delProjectsByClient db1 cid

/-- Success path of `Database::delete_profile`. -/
def deleteProfile (db : DB) (id : Int) : DB :=
  let cs := db.clients.filter (fun c => decide (c.profile_id = id))
  let db1 := cs.foldl (fun acc c => processClientTree acc c.id) db
  delProfileRow (delClientsByProfile db1 id) id

/-- Success path of `Database::delete_client`. -/
def deleteClient (db : DB) (id : Int) : DB :=
  delClientRow (processClientTree db id) id

/-! ## Fuel-counted transactions (failure injection)

A transaction state is the remaining fuel plus the working database.
Every SQL statement (fetch or delete, plus the final commit) consumes one
unit of fuel; exhausted fuel models that statement failing.  In the
source every statement result is unwrapped with `?`, so the first failure
aborts `delete_profile` / `delete_client` and sqlx rolls the uncommitted
transaction back: the caller-visible database is unchanged. -/

abbrev TxState := Nat × DB

/-- Run one statement inside the transaction: it fails (`none`) when the
fuel is exhausted, otherwise applies its effect on the working database. -/
def txStep (f : DB → DB) : TxState → Option TxState
  | (0, _) => none
  | (n + 1, db) => some (n, f db)

/-- Per-project statements of the cascade loops (line-item delete, then
invoice delete). -/
def projectContentsTx (p : Project) (s : TxState) : Option TxState :=
  txStep (fun db => delLineItemsByProject db p.id) s >>=
    txStep (fun db => delInvoicesByProject db p.id)

/-- Per-client statements: the project `SELECT`, the per-project loop,
then the project delete. -/
def clientTreeTx (c : Client) (s : TxState) : Option TxState := do
  let s1 ← txStep (fun dbx => dbx) s
  let ps := s1.2.projects.filter (fun p => decide (p.client_id = c.id))
  let s2 ← ps.foldlM (fun acc p => projectContentsTx p acc) s1
  txStep (fun db => delProjectsByClient db c.id) s2

/-- `Database::delete_profile` with an injected failure after `fuel`
statements; `none` means some statement failed before commit. -/
def deleteProfileTx (fuel : Nat) (db : DB) (id : Int) : Option DB := do
  let s1 ← txStep (fun dbx => dbx) (fuel, db)
  let cs := s1.2.clients.filter (fun c => decide (c.profile_id = id))
  let s2 ← cs.foldlM (fun acc c => clientTreeTx c acc) s1
  let s3 ← txStep (fun db2 => delClientsByProfile db2 id) s2
  let s4 ← txStep (fun db2 => delProfileRow db2 id) s3
  let s5 ← txStep (fun dbx => dbx) s4
  pure s5.2

/-- `Database::delete_client` with an injected failure after `fuel`
statements. -/
def deleteClientTx (fuel : Nat) (db : DB) (id : Int) : Option DB := do
  let s1 ← txStep (fun dbx => dbx) (fuel, db)
  let ps := s1.2.projects.filter (fun p => decide (p.client_id = id))
  let s2 ← ps.foldlM (fun acc p => projectContentsTx p acc) s1
  let s3 ← txStep (fun db2 => delProjectsByClient db2 id) s2
  let s4 ← txStep (fun db2 => delClientRow db2 id) s3
  let s5 ← txStep (fun dbx => dbx) s4
  pure s5.2

/-- The caller-visible effect of `delete_profile`: the committed state on
success, the original state (rollback of the uncommitted transaction) on
any failure. -/
def deleteProfileAtomic (fuel : Nat) (db : DB) (id : Int) : DB :=
  match deleteProfileTx fuel db id with
  | some db2 => db2
  | none => db

/-- The caller-visible effect of `delete_client`. -/
def deleteClientAtomic (fuel : Nat) (db : DB) (id : Int) : DB :=
  match deleteClientTx fuel db id with
  | some db2 => db2
  | none => db

/-- Every row of `db` is still present in `db2`. -/
def rowsPreserved (db db2 : DB) : Prop :=
  (∀ x ∈ db.profiles, x ∈ db2.profiles) ∧
  (∀ x ∈ db.clients, x ∈ db2.clients) ∧
  (∀ x ∈ db.projects, x ∈ db2.projects) ∧
  (∀ x ∈ db.invoices, x ∈ db2.invoices) ∧
  (∀ x ∈ db.lineItems, x ∈ db2.lineItems)

end InvoiceManager

namespace InvoiceManager

/-! ## Concrete sample database -/

/-- A concrete database with one profile (id 1) owning one client (id 10)
owning one project (id 100) owning one invoice (id 1000) with one line
item (id 5000), used to instantiate the delete theorems. -/
def dbW : DB :=
  { profiles := [{ id := 1, name := "Acme".data, phonenumber := "555".data,
                   address := none, email := "a@x.com".data,
                   bank_name := "Bank".data, bank_account_number := "1".data,
                   bank_routing_number := "2".data }],
    clients := [{ id := 10, name := "Bob".data, phone := "556".data,
                  address := none, email := "bob@x.com".data, profile_id := 1 }],
    projects := [{ id := 100, client_id := 10, name := "Website".data,
                   start_date := ⟨2024, 1, 1⟩, end_date := none }],
    invoices := [{ id := 1000, project_id := 100, number := 7,
                   submit_date := ⟨2024, 2, 1⟩, due_date := ⟨2024, 2, 10⟩,
                   rate := F64.finite 50, status := "Draft".data }],
    lineItems := [{ id := 5000, invoice_id := 1000, description := "Design".data,
                    hours := F64.finite 4 }] }

/-! ## Parsing and rendering of numbers

Rust's `str::parse` for the integer types, and `str::parse::<f64>` in
full: an optional sign followed by a case-insensitive `inf`, `infinity`
or `NaN`, or a decimal number (digits, optional `.` and fraction digits,
optional `e`/`E` exponent, at least one mantissa digit); a decimal value
is rounded to the nearest IEEE binary64 (round-to-nearest,
ties-to-even), so overflow produces an infinity and underflow produces
zero, as in the program. -/

/-- Numeric value of a decimal digit character. -/
def digitVal (c : Char) : Nat := c.toNat - 48

/-- Value of a non-empty all-digit character list; `none` otherwise. -/
def parseNatDigits (cs : List Char) : Option Nat :=
  if cs ≠ [] ∧ cs.all Char.isDigit then
    some (cs.foldl (fun a c => 10 * a + digitVal c) 0)
  else
    none

/-- `str::parse::<i32>`: optional sign, digits, range check. -/
def parseI32 (cs : List Char) : Option Int :=
  match cs with
  | '-' :: rest =>
      (parseNatDigits rest).bind
        (fun n => if (n : Int) ≤ 2147483648 then some (-(n : Int)) else none)
  | '+' :: rest =>
      (parseNatDigits rest).bind
        (fun n => if n ≤ 2147483647 then some (n : Int) else none)
  | _ =>
      (parseNatDigits cs).bind
        (fun n => if n ≤ 2147483647 then some (n : Int) else none)

/-- `str::parse::<u32>`: optional `+` sign, digits, range check. -/
def parseU32 (cs : List Char) : Option Nat :=
  match cs with
  | '+' :: rest =>
      (parseNatDigits rest).bind (fun n => if n ≤ 4294967295 then some n else none)
  | _ =>
      (parseNatDigits cs).bind (fun n => if n ≤ 4294967295 then some n else none)

/-- Exponent part of the `f64` grammar: optional sign then digits. -/
def parseExpPart (cs : List Char) : Option Int :=
  match cs with
  | '-' :: rest => (parseNatDigits rest).map (fun n => -(n : Int))
  | '+' :: rest => (parseNatDigits rest).map (fun n => (n : Int))
  | _ => (parseNatDigits cs).map (fun n => (n : Int))

/-- The decimal-number part of the `f64` grammar, as an exact magnitude
`N × 10^p`: integer digits, optional `.` and fraction digits (at least
one mantissa digit in total), optional exponent. -/
def parseDecMag (cs : List Char) : Option (Nat × Int) :=
  let ip := cs.takeWhile Char.isDigit
  let cs2 := cs.dropWhile Char.isDigit
  let fp : List Char × List Char :=
    match cs2 with
    | '.' :: rest => (rest.takeWhile Char.isDigit, rest.dropWhile Char.isDigit)
    | _ => ([], cs2)
  if ip.isEmpty && fp.1.isEmpty then
    none
  else
    let m := (ip ++ fp.1).foldl (fun a c => 10 * a + digitVal c) 0
    match fp.2 with
    | [] => some (m, -(fp.1.length : Int))
    | 'e' :: rest => (parseExpPart rest).map (fun e => (m, e - (fp.1.length : Int)))
    | 'E' :: rest => (parseExpPart rest).map (fun e => (m, e - (fp.1.length : Int)))
    | _ => none

/-- `⌊log₂ n⌋`, fuelled (0 at 0 and 1). -/
def ilog2Aux : Nat → Nat → Nat
  | 0, _ => 0
  | fuel + 1, n => if n ≤ 1 then 0 else ilog2Aux fuel (n / 2) + 1

/-- `⌊log₂ n⌋` for `n ≥ 1`. -/
def ilog2 (n : Nat) : Nat := ilog2Aux n n

/-- Is `n / d < 2^e` (for `d ≥ 1`)? -/
def ratLtPow2 (n d : Nat) (e : Int) : Bool :=
  if 0 ≤ e then decide (n < 2 ^ e.toNat * d) else decide (n * 2 ^ (-e).toNat < d)

/-- The binary exponent of `n / d`: the largest `e` with `2^e ≤ n / d`,
estimated from the integer logs and corrected by direct comparison. -/
def expOf (n d : Nat) : Int :=
  let e0 : Int := (ilog2 n : Int) - (ilog2 d : Int)
  if ratLtPow2 n d e0 then e0 - 1
  else if ratLtPow2 n d (e0 + 1) then e0
  else e0 + 1

/-- `round(n / d · 2^shift)`, ties to even. -/
def roundMantissa (n d : Nat) (shift : Int) : Nat :=
  let N := if 0 ≤ shift then n * 2 ^ shift.toNat else n
  let D := if 0 ≤ shift then d else d * 2 ^ (-shift).toNat
  let q := N / D
  let r := N % D
  if 2 * r < D then q
  else if D < 2 * r then q + 1
  else if q % 2 = 0 then q else q + 1

/-- Round the positive rational `n / d` to the nearest IEEE binary64
magnitude: `none` is overflow to infinity; underflow reaches `some 0`.
Below the normal range the subnormal scale `2^-1074` applies (a carry to
`2^52` there lands exactly on the smallest normal); in the normal range
a mantissa carry to `2^53` moves the exponent up one, and an exponent
beyond 1023 overflows. -/
def roundPosF64 (n d : Nat) : Option ℚ :=
  let e := expOf n d
  if e < -1022 then
    some ((roundMantissa n d 1074 : ℚ) * (2 : ℚ) ^ (-1074 : Int))
  else
    let m := roundMantissa n d (52 - e)
    let me : Nat × Int := if m = 2 ^ 53 then (2 ^ 52, e + 1) else (m, e)
    if 1023 < me.2 then none
    else some ((me.1 : ℚ) * (2 : ℚ) ^ (me.2 - 52))

/-- The IEEE binary64 nearest to the decimal `±N × 10^p`. -/
def decToF64 (neg : Bool) (N : Nat) (p : Int) : F64 :=
  if N = 0 then F64.finite 0
  else
    let n := if 0 ≤ p then N * 10 ^ p.toNat else N
    let d := if 0 ≤ p then 1 else 10 ^ (-p).toNat
    match roundPosF64 n d with
    | none => if neg then F64.negInf else F64.inf
    | some q => F64.finite (if neg then -q else q)

/-- `str::parse::<f64>`: sign, then the case-insensitive `inf` /
`infinity` / `NaN` words or a correctly rounded decimal number. -/
def parseF64 (cs : List Char) : Option F64 :=
  let sgn : Bool × List Char :=
    match cs with
    | '-' :: rest => (true, rest)
    | '+' :: rest => (false, rest)
    | _ => (false, cs)
  let low := sgn.2.map Char.toLower
  if low = "inf".data ∨ low = "infinity".data then
    some (if sgn.1 then F64.negInf else F64.inf)
  else if low = "nan".data then
    some F64.nan
  else
    (parseDecMag sgn.2).map (fun np => decToF64 sgn.1 np.1 np.2)

/-- The character of a decimal digit. -/
def natDigit (n : Nat) : Char := Char.ofNat (48 + n)

/-- Decimal digits of a natural number (fuelled helper). -/
def natDigitsAux : Nat → Nat → List Char
  | 0, _ => []
  | fuel + 1, n => if n = 0 then [] else natDigitsAux fuel (n / 10) ++ [natDigit (n % 10)]

/-- Decimal digits of a natural number, `['0']` for zero — the integer
part of Rust's `Display` for numbers. -/
def natDigits (n : Nat) : List Char :=
  if n = 0 then ['0'] else natDigitsAux (n + 1) n

/-- Fractional decimal digits of `r / d` (at most `fuel` digits). -/
def fracDigits (d : Nat) : Nat → Nat → List Char
  | 0, _ => []
  | fuel + 1, r =>
      if r = 0 then [] else natDigit (r * 10 / d) :: fracDigits d fuel (r * 10 % d)

/-- Rust `f64::to_string`: `inf`, `-inf` and `NaN` print as such; a
finite value prints sign, integer digits, and a fractional part when
there is one (17 digits always suffice for the shortest round-trip
decimal of a finite `f64`).  Its output is never empty. -/
def f64ToChars : F64 → Str
  | .finite q =>
      (if q < 0 then ['-'] else [])
        ++ natDigits (q.num.natAbs / q.den)
        ++ (if (fracDigits q.den 17 (q.num.natAbs % q.den)).isEmpty then []
            else '.' :: fracDigits q.den 17 (q.num.natAbs % q.den))
  | .inf => "inf".data
  | .negInf => "-inf".data
  | .nan => "NaN".data

/-- Last two decimal digits, zero padded: chrono's `%m` / `%d` for the
in-range values handled here. -/
def natToDigits2 (n : Nat) : List Char :=
  [natDigit (n / 10 % 10), natDigit (n % 10)]

/-- Last four decimal digits, zero padded: chrono's `%Y` for years
0–9999 (the claims quantify over 1900–2100). -/
def natToDigits4 (n : Nat) : List Char :=
  [natDigit (n / 1000 % 10), natDigit (n / 100 % 10),
   natDigit (n / 10 % 10), natDigit (n % 10)]

/-! ## Key events (`crossterm::event::KeyCode`, restricted to the
variants the components match on) -/

inductive KeyCode where
  | char (c : Char)
  | backspace
  | enter
  | esc
  | tab
  | up
  | down
  | left
  | right
  | other
deriving DecidableEq, Repr

/-! ## DateInput component (`src/ui/components/date_input.rs`) -/

inductive DatePart where
  | year
  | month
  | day
deriving DecidableEq, Repr

structure DateInputState where
  date : Date
  editing : Bool
  date_part : DatePart
  current_date_input : Str
deriving DecidableEq, Repr

/-- `DateInputState::new`. -/
def DateInputState.new (d : Date) : DateInputState :=
  { date := d, editing := false, date_part := .year, current_date_input := [] }

/-- `DateInputState::toggle_editing`: flip the flag; entering edit mode
resets focus to the year and clears the scratch buffer. -/
def DateInputState.toggle_editing (s : DateInputState) : DateInputState :=
  let s2 := { s with editing := !s.editing }
  if s2.editing then { s2 with date_part := .year, current_date_input := [] } else s2

/-- `DateInputState::next_date_part`. -/
def DateInputState.next_date_part (s : DateInputState) : DateInputState :=
  let p := match s.date_part with
    | .year => DatePart.month
    | .month => DatePart.day
    | .day => DatePart.year
  { s with date_part := p, current_date_input := [] }

/-- `DateInputState::previous_date_part`. -/
def DateInputState.previous_date_part (s : DateInputState) : DateInputState :=
  let p := match s.date_part with
    | .year => DatePart.day
    | .month => DatePart.year
    | .day => DatePart.month
  { s with date_part := p, current_date_input := [] }

/-- The digit branch of `DateInputState::handle_input` once the digit has
been appended to the scratch buffer (`buf`). -/
def DateInputState.commitDigit (s : DateInputState) (buf : Str) : DateInputState :=
  let year := s.date.year
  let month := s.date.month
  let day := s.date.day
  match s.date_part with
  | .year =>
      if buf.length = 4 then
        let s2 :=
          match parseI32 buf with
          | some newYear =>
              if 1900 ≤ newYear ∧ newYear ≤ 2100 then
                match fromYmdOpt newYear month day with
                | some nd => { s with date := nd }
                | none => s
              else s
          | none => s
        { s2 with current_date_input := [] }
      else if buf.length > 4 then
        { s with current_date_input := (buf.reverse.take 4).reverse }
      else
        { s with current_date_input := buf }
  | .month =>
      if buf.length = 2 then
        let s2 :=
          match parseU32 buf with
          | some newMonth =>
              if 1 ≤ newMonth ∧ newMonth ≤ 12 then
                match fromYmdOpt year newMonth day with
                | some nd => { s with date := nd }
                | none => s
              else s
          | none => s
        { s2 with current_date_input := [] }
      else
        { s with current_date_input := buf }
  | .day =>
      if buf.length = 2 then
        let s2 :=
          match parseU32 buf with
          | some newDay =>
              let maxDay := daysInMonth year month
              if 1 ≤ newDay ∧ newDay ≤ maxDay then
                match fromYmdOpt year month newDay with
                | some nd => { s with date := nd }
                | none => s
              else s
          | none => s
        { s2 with current_date_input := [] }
      else
        { s with current_date_input := buf }

/-- `DateInputState::handle_input`. -/
def DateInputState.handle_input (s : DateInputState) (key : KeyCode) : DateInputState :=
  if !s.editing then s
  else
    match key with
    | .char c =>
        if c.isDigit then s.commitDigit (s.current_date_input ++ [c]) else s
    | .backspace => { s with current_date_input := s.current_date_input.dropLast }
    | .right => s.next_date_part
    | .left => s.previous_date_part
    | _ => s

/-- `DateInputState::get_display_string`: `YYYY-MM-DD`, with the focused
part's bracketed scratch text (or placeholder) inserted while editing. -/
def DateInputState.get_display_string (s : DateInputState) : Str :=
  let ys := natToDigits4 s.date.year.toNat
  let ms := natToDigits2 s.date.month
  let ds := natToDigits2 s.date.day
  if s.editing then
    let cur : Str :=
      if !s.current_date_input.isEmpty then '[' :: s.current_date_input ++ [']']
      else
        match s.date_part with
        | .year => "[YYYY]".data
        | .month => "[MM]".data
        | .day => "[DD]".data
    match s.date_part with
    | .year => ys ++ cur ++ '-' :: ms ++ '-' :: ds
    | .month => ys ++ '-' :: ms ++ cur ++ '-' :: ds
    | .day => ys ++ '-' :: ms ++ '-' :: ds ++ cur
  else
    ys ++ '-' :: ms ++ '-' :: ds
/-! ## Profile wizard (`src/ui/profile_wizard.rs`) -/

inductive ProfileField where
  | name
  | email
  | phoneNumber
  | address
  | bankName
  | bankAccountNumber
  | bankRoutingNumber
deriving DecidableEq, Repr

structure ProfileWizardState where
  profile : Profile
  current_field : ProfileField
  editing : Bool
deriving DecidableEq, Repr

/-- `ProfileWizardState::is_valid`: all required profile fields
non-empty (the optional address is not required). -/
def ProfileWizardState.is_valid (s : ProfileWizardState) : Bool :=
  !s.profile.name.isEmpty &&
  !s.profile.email.isEmpty &&
  !s.profile.phonenumber.isEmpty &&
  !s.profile.bank_name.isEmpty &&
  !s.profile.bank_account_number.isEmpty &&
  !s.profile.bank_routing_number.isEmpty

/-! ## Client wizard (`src/ui/client_wizard.rs`) -/

inductive ClientField where
  | name
  | email
  | phone
  | address
deriving DecidableEq, Repr

structure ClientWizardState where
  profile_id : Int
  client : Client
  current_field : ClientField
  editing : Bool
deriving DecidableEq, Repr

/-- `ClientWizardState::is_valid`. -/
def ClientWizardState.is_valid (s : ClientWizardState) : Bool :=
  !s.client.name.isEmpty && !s.client.email.isEmpty && !s.client.phone.isEmpty

/-! ## Project wizard (`src/ui/project_wizard.rs`) -/

inductive ProjectField where
  | name
  | startDate
  | endDate
deriving DecidableEq, Repr

structure ProjectWizardState where
  client_id : Int
  project : Project
  current_field : ProjectField
  editing : Bool
  start_date_state : DateInputState
  end_date_state : DateInputState
deriving DecidableEq, Repr

/-- `ProjectWizardState::is_valid`. -/
def ProjectWizardState.is_valid (s : ProjectWizardState) : Bool :=
  !s.project.name.isEmpty

/-! ## Invoice wizard (`src/ui/invoice_wizard.rs`) -/

inductive InvoiceField where
  | submitDate
  | dueDate
  | rate
  | lineItems
deriving DecidableEq, Repr

inductive LineItemField where
  | description
  | hours
  | none
deriving DecidableEq, Repr

structure InvoiceWizardState where
  project_id : Int
  invoice_id : Option Int
  submit_date : Date
  due_date : Date
  rate : F64
  line_items : List InvoiceLineItem
  current_field : InvoiceField
  list_selected : Option Nat
  editing_line_item : Option (Nat × LineItemField × Str)
  editing : Bool
  active_input : Str
  show_error : Option Str
  submit_date_state : DateInputState
  due_date_state : DateInputState
deriving DecidableEq, Repr

inductive InvoiceWizardAction where
  | cancel
  | save (invoice : Invoice) (items : List InvoiceLineItem)
deriving DecidableEq, Repr

/-- `InvoiceWizardState::toggle_editing`: flip the flag; on entering edit
mode, date fields start their own edit sub-machine and the Rate field
seeds the scratch buffer with the committed rate's display string; on
leaving, the date sub-editors and the line-item editor are closed. -/
def InvoiceWizardState.toggle_editing (s : InvoiceWizardState) : InvoiceWizardState :=
  let s2 := { s with editing := !s.editing }
  if s2.editing then
    match s2.current_field with
    | .submitDate => { s2 with submit_date_state := s2.submit_date_state.toggle_editing }
    | .dueDate => { s2 with due_date_state := s2.due_date_state.toggle_editing }
    | .rate => { s2 with active_input := f64ToChars s2.rate }
    | .lineItems => s2
  else
    { s2 with
        submit_date_state := { s2.submit_date_state with editing := false },
        due_date_state := { s2.due_date_state with editing := false },
        editing_line_item := none }

/-- The inline error text of the Hours commit failure. -/
def invalidHoursMsg : Str := "Invalid hours. Please enter a valid number.".data

/-- A placeholder line item (the `idx < len` guards keep it unused). -/
def dfltLineItem : InvoiceLineItem := { id := 0, invoice_id := 0, description := [], hours := F64.finite 0 }

/-- `InvoiceWizardState::next_field_in_line_item`: commit the focused
line-item field; Description advances to Hours, Hours must parse as an
`f64` — on success the value is stored and editing ends, on failure an
inline error is shown and the editor state (field and scratch text) is
left as it was. -/
def InvoiceWizardState.next_field_in_line_item (s : InvoiceWizardState) : InvoiceWizardState :=
  match s.editing_line_item with
  | some (idx, field, value) =>
      match field with
      | .description =>
          if idx < s.line_items.length then
            let old := s.line_items.getD idx dfltLineItem
            { s with
                line_items := s.line_items.set idx { old with description := value },
                editing_line_item := some (idx, .hours, f64ToChars old.hours) }
          else s
      | .hours =>
          if idx < s.line_items.length then
            match parseF64 value with
            | some hours =>
                let old := s.line_items.getD idx dfltLineItem
                { s with
                    line_items := s.line_items.set idx { old with hours := hours },
                    editing_line_item := none }
            | none =>
                { s with show_error := some invalidHoursMsg }
          else s
      | .none => s
  | none => s

/-- `InvoiceWizardState::edit_current_field`. -/
def InvoiceWizardState.edit_current_field (s : InvoiceWizardState) (key : KeyCode) :
    InvoiceWizardState :=
  if !s.editing then s
  else
    match s.current_field with
    | .submitDate =>
        let st := s.submit_date_state.handle_input key
        { s with submit_date_state := st, submit_date := st.date }
    | .dueDate =>
        let st := s.due_date_state.handle_input key
        { s with due_date_state := st, due_date := st.date }
    | .rate =>
        match key with
        | .char c =>
            if c.isDigit || c = '.' then { s with active_input := s.active_input ++ [c] }
            else s
        | .backspace => { s with active_input := s.active_input.dropLast }
        | _ => s
    | .lineItems =>
        match s.editing_line_item with
        | some (idx, f, value) =>
            match key with
            | .char c => { s with editing_line_item := some (idx, f, value ++ [c]) }
            | .backspace => { s with editing_line_item := some (idx, f, value.dropLast) }
            | _ => s
        | none => s

/-- `InvoiceWizardState::to_invoice`; `nowTs` is `Local::now().timestamp()`,
passed explicitly since the wizard reads the clock. -/
def InvoiceWizardState.to_invoice (s : InvoiceWizardState) (nowTs : Int) : Invoice :=
  let number := s.invoice_id.getD (nowTs % 10000)
  { id := s.invoice_id.getD 0,
    project_id := s.project_id,
    number := number,
    submit_date := s.submit_date,
    due_date := s.due_date,
    rate := if s.active_input.isEmpty then s.rate
            else (parseF64 s.active_input).getD s.rate,
    status := "Draft".data }

/-- `InvoiceWizardState::is_valid`: a non-empty scratch buffer overrides
the committed rate, with an unparsable buffer counting as rate 0. -/
def InvoiceWizardState.is_valid (s : InvoiceWizardState) : Bool :=
  let rate_valid :=
    if s.active_input.isEmpty then s.rate.gtZero
    else ((parseF64 s.active_input).getD (F64.finite 0)).gtZero
  !s.line_items.isEmpty && rate_valid

/-- The `Esc` branch of the invoice wizard's `handle_input` (which first
clears any pending error): while editing it only leaves edit mode, and
from browsing it cancels the wizard. -/
def InvoiceWizardState.onEsc (s : InvoiceWizardState) :
    InvoiceWizardState × Option InvoiceWizardAction :=
  let s2 := { s with show_error := none }
  if s2.editing then (s2.toggle_editing, none) else (s2, some .cancel)

/-! ## Email overlay (`src/ui/email_wizard.rs`) and the file system

The file system is the list of existing paths; `fs::remove_file` fails on
a missing path (POSIX `ENOENT`), which is why `cleanup_files` guards each
removal with an existence check. -/

inductive EmailField where
  | recipientEmail
  | subject
  | message
  | none
deriving DecidableEq, Repr

structure EmailWizardState where
  invoice_id : Int
  invoice : Option Invoice
  line_items : Option (List InvoiceLineItem)
  recipient_email : Str
  subject : Str
  message : Str
  current_field : EmailField
  show_error : Option Str
  show_success : Option Str
  generated_md_path : Option Str
  generated_pdf_path : Option Str
  dismissing : Bool
deriving DecidableEq, Repr

/-- `EmailWizardState::new`. -/
def EmailWizardState.new (invoiceId : Int) : EmailWizardState :=
  { invoice_id := invoiceId, invoice := none, line_items := none,
    recipient_email := [], subject := [], message := [],
    current_field := .recipientEmail, show_error := none, show_success := none,
    generated_md_path := none, generated_pdf_path := none, dismissing := false }

/-- `EmailWizardState::next_field` (saturates at the ready-to-send
`None` pseudo-field). -/
def EmailWizardState.next_field (s : EmailWizardState) : EmailWizardState :=
  match s.current_field with
  | .recipientEmail => { s with current_field := .subject }
  | .subject => { s with current_field := .message }
  | .message => { s with current_field := .none }
  | .none => s

/-- `EmailWizardState::previous_field` (saturates at RecipientEmail). -/
def EmailWizardState.previous_field (s : EmailWizardState) : EmailWizardState :=
  match s.current_field with
  | .recipientEmail => s
  | .subject => { s with current_field := .recipientEmail }
  | .message => { s with current_field := .subject }
  | .none => { s with current_field := .message }

/-- The `Tab` branch of the email overlay's `handle_input`: Shift+Tab
moves back, Tab moves forward. -/
def EmailWizardState.onTab (s : EmailWizardState) (shift : Bool) : EmailWizardState :=
  if shift then s.previous_field else s.next_field

/-- The file system: the set of existing paths. -/
abbrev FS := List Str

/-- `Path::new(p).exists()`. -/
def pathExists (fs : FS) (p : Str) : Bool := decide (p ∈ fs)

/-- `fs::remove_file`: deletes the path, errors when it does not exist. -/
def removeFile (fs : FS) (p : Str) : Except Str FS :=
  if p ∈ fs then .ok (fs.filter (fun q => !decide (q = p))) else .error "NotFound".data

/-- One `if let Some(path) = … { if path.exists() { fs::remove_file(path)?; } }`
block of `cleanup_files`. -/
def cleanupStep (po : Option Str) (fs : FS) : Except Str FS :=
  match po with
  | some p => if pathExists fs p then removeFile fs p else pure fs
  | none => pure fs

/-- `EmailWizardState::cleanup_files`: remove each recorded generated
artifact (markdown first, then pdf), skipping any that no longer
exists. -/
def EmailWizardState.cleanup_files (s : EmailWizardState) (fs : FS) : Except Str FS := do
  let fs1 ← cleanupStep s.generated_md_path fs
  let fs2 ← cleanupStep s.generated_pdf_path fs1
  pure fs2

/-- `EmailWizardState::dismiss`: mark for dismissal and clean up
immediately; a cleanup error is only logged. -/
def EmailWizardState.dismiss (s : EmailWizardState) (fs : FS) : EmailWizardState × FS :=
  let s2 := { s with dismissing := true }
  match s2.cleanup_files fs with
  | .ok fs2 => (s2, fs2)
  | .error _ => (s2, fs)

/-- The `EmailWizardAction::Cancel` branch of the Invoices screen's
`handle_input` (`src/ui/invoices.rs`): dismiss the overlay (which cleans
up the generated files) and close it. -/
def handleEmailCancel (s : EmailWizardState) (fs : FS) : Option EmailWizardState × FS :=
  let r := s.dismiss fs
  (Option.none, r.2)

/-! ## Navigator: direct Project delete (`src/main.rs`,
`handle_projects_screen`) -/

/-- Lexicographic comparison of character lists, the model of the `ORDER
BY name ASC` collation. -/
def strLe : Str → Str → Bool
  | [], _ => true
  | _ :: _, [] => false
  | a :: as, b :: bs => if a = b then strLe as bs else decide (a < b)

/-- `Database::load_projects_by_client`:
`SELECT * FROM projects WHERE client_id = $1 ORDER BY name ASC`. -/
def loadProjectsByClient (db : DB) (cid : Int) : List Project :=
  (db.projects.filter (fun p => decide (p.client_id = cid))).mergeSort
    (fun a b => strLe a.name b.name)

/-- The `ProjectAction::DeleteProject` branch of
`handle_projects_screen`: delete the single project row, then reload the
Projects(client) list from the database. -/
def handleDeleteProject (db : DB) (clientId projectId : Int) : DB × List Project :=
  let db2 := deleteProject db projectId
  (db2, loadProjectsByClient db2 clientId)

/-! ## Helper notions used by the theorem statements -/

/-- Expected digit width of a date part (4 for year, 2 otherwise). -/
def widthOf : DatePart → Nat
  | .year => 4
  | .month => 2
  | .day => 2

/-- The focused part's value of a date, as an integer. -/
def partValue (d : Date) : DatePart → Int
  | .year => d.year
  | .month => (d.month : Int)
  | .day => (d.day : Int)

/-- The two non-focused parts of `d1` and `d2` agree. -/
def partsOtherEq (d1 d2 : Date) : DatePart → Prop
  | .year => d1.month = d2.month ∧ d1.day = d2.day
  | .month => d1.year = d2.year ∧ d1.day = d2.day
  | .day => d1.year = d2.year ∧ d1.month = d2.month

/-- The parser the focused part's commit uses (`i32` for year, `u32`
for month and day). -/
def parseFor : DatePart → Str → Option Int
  | .year, buf => parseI32 buf
  | .month, buf => (parseU32 buf).map (fun n => (n : Int))
  | .day, buf => (parseU32 buf).map (fun n => (n : Int))

/-- The validity bounds the focused part's commit checks. -/
def inBoundsFor (s : DateInputState) : DatePart → Int → Prop
  | .year, v => 1900 ≤ v ∧ v ≤ 2100
  | .month, v => 1 ≤ v ∧ v ≤ 12
  | .day, v => 1 ≤ v ∧ v ≤ (daysInMonth s.date.year s.date.month : Int)

/-- Feed a sequence of key events to a date input. -/
def replay (s : DateInputState) (keys : List KeyCode) : DateInputState :=
  keys.foldl DateInputState.handle_input s

/-- Start from February 1st of `y`, focus the day part in edit mode, and
type `29`. -/
def feb29 (y : Int) : DateInputState :=
  replay { DateInputState.new ⟨y, 2, 1⟩ with editing := true, date_part := DatePart.day }
    [KeyCode.char '2', KeyCode.char '9']

/-- Remove a recorded path (if any) from the file system. -/
def eraseOpt (fs : FS) : Option Str → FS
  | some p => fs.filter (fun q => !decide (q = p))
  | none => fs

/-! ## Concrete component states used by counterexamples and witnesses -/

/-- A browsing invoice-wizard state over one line item, committed rate 5,
empty scratch buffer. -/
def baseInvW : InvoiceWizardState :=
  { project_id := 100, invoice_id := some 1000, submit_date := ⟨2024, 2, 1⟩,
    due_date := ⟨2024, 2, 10⟩, rate := F64.finite 5,
    line_items := [{ id := 1, invoice_id := 1000, description := "Design".data, hours := F64.finite 4 }],
    current_field := InvoiceField.rate, list_selected := some 0,
    editing_line_item := none, editing := false, active_input := [],
    show_error := none,
    submit_date_state := DateInputState.new ⟨2024, 2, 1⟩,
    due_date_state := DateInputState.new ⟨2024, 2, 10⟩ }

/-- `baseInvW` with an unparsable rate scratch buffer `"x"`. -/
def invW : InvoiceWizardState := { baseInvW with active_input := ['x'] }

/-- An invoice wizard editing the Hours field of its only line item with
scratch text `"-5"`. -/
def liW : InvoiceWizardState :=
  { baseInvW with
      current_field := InvoiceField.lineItems, editing := true,
      line_items := [{ id := 1, invoice_id := 1000, description := "Design".data, hours := F64.finite 0 }],
      editing_line_item := some (0, LineItemField.hours, ['-', '5']) }

/-- An invoice wizard editing the Hours field of its only line item with
scratch text `"2.5"`. -/
def liW2 : InvoiceWizardState :=
  { baseInvW with
      current_field := InvoiceField.lineItems, editing := true,
      line_items := [{ id := 1, invoice_id := 1000, description := "Design".data, hours := F64.finite 0 }],
      editing_line_item := some (0, LineItemField.hours, ['2', '.', '5']) }

/-- A freshly opened email overlay advanced to the ready-to-send
pseudo-field. -/
def emW : EmailWizardState :=
  { EmailWizardState.new 1000 with current_field := EmailField.none }

/-- An email overlay with both generated artifact paths recorded. -/
def emF : EmailWizardState :=
  { EmailWizardState.new 1000 with
      generated_md_path := some "invoices/invoice_7.md".data,
      generated_pdf_path := some "invoices/invoice_7.pdf".data }

/-- A file system holding the two generated artifacts and one unrelated
file. -/
def fsW : FS :=
  ["invoices/invoice_7.md".data, "invoices/invoice_7.pdf".data, "other.txt".data]

/-- A date input editing the month part with `"0"` already typed. -/
def dsW : DateInputState :=
  { date := ⟨2024, 2, 10⟩, editing := true, date_part := DatePart.month,
    current_date_input := ['0'] }

-- MOREDEFS marker: further definitions are inserted here

/-! ## Basic facts about `rowsPreserved` and the delete statements -/

theorem rowsPreserved_refl (db : DB) : rowsPreserved db db :=
  ⟨fun _ h => h, fun _ h => h, fun _ h => h, fun _ h => h, fun _ h => h⟩

theorem rowsPreserved_trans {a b c : DB} (h1 : rowsPreserved a b)
    (h2 : rowsPreserved b c) : rowsPreserved a c :=
  ⟨fun x hx => h2.1 x (h1.1 x hx),
   fun x hx => h2.2.1 x (h1.2.1 x hx),
   fun x hx => h2.2.2.1 x (h1.2.2.1 x hx),
   fun x hx => h2.2.2.2.1 x (h1.2.2.2.1 x hx),
   fun x hx => h2.2.2.2.2 x (h1.2.2.2.2 x hx)⟩

end InvoiceManager

namespace InvoiceManager

/-- C1: If any step of a Profile or Client cascade delete fails
(modelled by the fuel running out at that statement), no row is deleted:
the whole transaction rolls back, and every profile, client, project,
invoice and line-item row that existed before the call still exists
afterwards — `delete_profile` and `delete_client` are atomic. -/
theorem cascade_delete_rollback (fuel : Nat) (db : DB) (id : Int) :
    (deleteProfileTx fuel db id = none →
      deleteProfileAtomic fuel db id = db ∧
      rowsPreserved db (deleteProfileAtomic fuel db id)) ∧
    (deleteClientTx fuel db id = none →
      deleteClientAtomic fuel db id = db ∧
      rowsPreserved db (deleteClientAtomic fuel db id)) := by
  constructor
  · intro h
    have he : deleteProfileAtomic fuel db id = db := by
      simp [deleteProfileAtomic, h]
    exact ⟨he, by rw [he]; exact rowsPreserved_refl db⟩
  · intro h
    have he : deleteClientAtomic fuel db id = db := by
      simp [deleteClientAtomic, h]
    exact ⟨he, by rw [he]; exact rowsPreserved_refl db⟩

/-- Witness for C1: on `dbW`, `delete_profile` with a failure injected at
its last statement (the commit, fuel 7) and `delete_client` with a
failure at its last statement (fuel 5) leave the database unchanged. -/
theorem cascade_delete_rollback_witness :
    deleteProfileTx 7 dbW 1 = none ∧ deleteProfileAtomic 7 dbW 1 = dbW ∧
    deleteClientTx 5 dbW 10 = none ∧ deleteClientAtomic 5 dbW 10 = dbW :=
  ⟨by decide, ((cascade_delete_rollback 7 dbW 1).1 (by decide)).1,
   by decide, ((cascade_delete_rollback 5 dbW 10).2 (by decide)).1⟩

end InvoiceManager

namespace InvoiceManager

/-! ## Structural lemmas about the cascade-delete success path -/

theorem dpc_profiles (db : DB) (pid : Int) :
    (deleteProjectContents db pid).profiles = db.profiles := rfl

theorem dpc_clients (db : DB) (pid : Int) :
    (deleteProjectContents db pid).clients = db.clients := rfl

theorem dpc_projects (db : DB) (pid : Int) :
    (deleteProjectContents db pid).projects = db.projects := rfl

theorem foldDPC_profiles (ps : List Project) (db : DB) :
    (ps.foldl (fun a p => deleteProjectContents a p.id) db).profiles = db.profiles := by
  induction ps generalizing db with
  | nil => rfl
  | cons q tail ih => simp [List.foldl_cons, ih, dpc_profiles]

theorem foldDPC_clients (ps : List Project) (db : DB) :
    (ps.foldl (fun a p => deleteProjectContents a p.id) db).clients = db.clients := by
  induction ps generalizing db with
  | nil => rfl
  | cons q tail ih => simp [List.foldl_cons, ih, dpc_clients]

theorem foldDPC_projects (ps : List Project) (db : DB) :
    (ps.foldl (fun a p => deleteProjectContents a p.id) db).projects = db.projects := by
  induction ps generalizing db with
  | nil => rfl
  | cons q tail ih => simp [List.foldl_cons, ih, dpc_projects]

theorem pct_profiles (db : DB) (cid : Int) :
    (processClientTree db cid).profiles = db.profiles := by
  simp [processClientTree, delProjectsByClient, foldDPC_profiles]

theorem pct_clients (db : DB) (cid : Int) :
    (processClientTree db cid).clients = db.clients := by
  simp [processClientTree, delProjectsByClient, foldDPC_clients]

theorem pct_projects (db : DB) (cid : Int) :
    (processClientTree db cid).projects =
      db.projects.filter (fun p => !decide (p.client_id = cid)) := by
  simp [processClientTree, delProjectsByClient, foldDPC_projects]

theorem foldPCT_profiles (cs : List Client) (db : DB) :
    (cs.foldl (fun a c => processClientTree a c.id) db).profiles = db.profiles := by
  induction cs generalizing db with
  | nil => rfl
  | cons c tail ih => simp [List.foldl_cons, ih, pct_profiles]

theorem foldPCT_clients (cs : List Client) (db : DB) :
    (cs.foldl (fun a c => processClientTree a c.id) db).clients = db.clients := by
  induction cs generalizing db with
  | nil => rfl
  | cons c tail ih => simp [List.foldl_cons, ih, pct_clients]

/-! Monotonicity: every statement of the cascade only removes rows. -/

theorem rp_delLineItemsByProject (db : DB) (pid : Int) :
    rowsPreserved (delLineItemsByProject db pid) db := by
  refine ⟨fun x hx => hx, fun x hx => hx, fun x hx => hx, fun x hx => hx, fun x hx => ?_⟩
  exact List.mem_of_mem_filter hx

theorem rp_delInvoicesByProject (db : DB) (pid : Int) :
    rowsPreserved (delInvoicesByProject db pid) db := by
  refine ⟨fun x hx => hx, fun x hx => hx, fun x hx => hx, fun x hx => ?_, fun x hx => hx⟩
  exact List.mem_of_mem_filter hx

theorem rp_dpc (db : DB) (pid : Int) :
    rowsPreserved (deleteProjectContents db pid) db :=
  rowsPreserved_trans (rp_delInvoicesByProject _ pid) (rp_delLineItemsByProject db pid)

theorem rp_foldDPC (ps : List Project) (db : DB) :
    rowsPreserved (ps.foldl (fun a p => deleteProjectContents a p.id) db) db := by
  induction ps generalizing db with
  | nil => exact rowsPreserved_refl db
  | cons q tail ih =>
      exact rowsPreserved_trans (ih (deleteProjectContents db q.id)) (rp_dpc db q.id)

theorem rp_pct (db : DB) (cid : Int) :
    rowsPreserved (processClientTree db cid) db := by
  have h1 : rowsPreserved (processClientTree db cid)
      (List.foldl (fun a p => deleteProjectContents a p.id) db
        (db.projects.filter (fun p => decide (p.client_id = cid)))) := by
    refine ⟨fun x hx => hx, fun x hx => hx, fun x hx => ?_, fun x hx => hx, fun x hx => hx⟩
    exact List.mem_of_mem_filter hx
  exact rowsPreserved_trans h1 (rp_foldDPC _ db)

theorem rp_foldPCT (cs : List Client) (db : DB) :
    rowsPreserved (cs.foldl (fun a c => processClientTree a c.id) db) db := by
  induction cs generalizing db with
  | nil => exact rowsPreserved_refl db
  | cons c tail ih =>
      exact rowsPreserved_trans (ih (processClientTree db c.id)) (rp_pct db c.id)

end InvoiceManager

namespace InvoiceManager

/-! Kill lemmas: once processed, no matching row survives. -/

theorem k_dpc_inv (db : DB) (pid : Int) :
    ∀ i ∈ (deleteProjectContents db pid).invoices, i.project_id ≠ pid := by
  intro i hi
  simp only [deleteProjectContents, delInvoicesByProject, List.mem_filter,
    Bool.not_eq_true', decide_eq_false_iff_not] at hi
  exact hi.2

theorem k_foldDPC_inv (ps : List Project) (db : DB) (p : Project) (hp : p ∈ ps) :
    ∀ i ∈ (ps.foldl (fun a q => deleteProjectContents a q.id) db).invoices,
      i.project_id ≠ p.id := by
  induction ps generalizing db with
  | nil => cases hp
  | cons q tail ih =>
      intro i hi
      rcases List.mem_cons.mp hp with hq | htail
      · subst hq
        have hmem : i ∈ (deleteProjectContents db p.id).invoices :=
          (rp_foldDPC tail (deleteProjectContents db p.id)).2.2.2.1 i hi
        exact k_dpc_inv db p.id i hmem
      · exact ih (deleteProjectContents db q.id) htail i hi

theorem k_pct_inv (db : DB) (cid : Int) (p : Project)
    (hp : p ∈ db.projects) (hpc : p.client_id = cid) :
    ∀ i ∈ (processClientTree db cid).invoices, i.project_id ≠ p.id := by
  intro i hi
  have hps : p ∈ db.projects.filter (fun q => decide (q.client_id = cid)) := by
    simp [List.mem_filter, hp, hpc]
  exact k_foldDPC_inv _ db p hps i hi

/-! Survival lemmas: rows of an unrelated project or client are untouched. -/

theorem s_dpc_inv (db : DB) (pid : Int) (i : Invoice)
    (hi : i ∈ db.invoices) (hne : i.project_id ≠ pid) :
    i ∈ (deleteProjectContents db pid).invoices := by
  simp only [deleteProjectContents, delInvoicesByProject, List.mem_filter,
    Bool.not_eq_true', decide_eq_false_iff_not]
  exact ⟨hi, hne⟩

theorem s_foldDPC_inv (ps : List Project) (db : DB) (i : Invoice)
    (hi : i ∈ db.invoices) (hne : ∀ q ∈ ps, q.id ≠ i.project_id) :
    i ∈ (ps.foldl (fun a q => deleteProjectContents a q.id) db).invoices := by
  induction ps generalizing db with
  | nil => exact hi
  | cons q tail ih =>
      refine ih (deleteProjectContents db q.id) ?_ (fun r hr => hne r (List.mem_cons_of_mem q hr))
      exact s_dpc_inv db q.id i hi (fun h => hne q (List.mem_cons_self q tail) h.symm)

theorem s_pct_inv (db : DB) (cid : Int) (i : Invoice)
    (hi : i ∈ db.invoices)
    (hne : ∀ q ∈ db.projects, q.client_id = cid → q.id ≠ i.project_id) :
    i ∈ (processClientTree db cid).invoices := by
  refine s_foldDPC_inv _ db i hi ?_
  intro q hq
  rw [List.mem_filter] at hq
  exact hne q hq.1 (by simpa using hq.2)

theorem s_pct_proj (db : DB) (cid : Int) (p : Project)
    (hp : p ∈ db.projects) (hne : p.client_id ≠ cid) :
    p ∈ (processClientTree db cid).projects := by
  rw [pct_projects]
  simp [List.mem_filter, hp, hne]

theorem nodup_pct_proj (db : DB) (cid : Int)
    (h : (db.projects.map Project.id).Nodup) :
    ((processClientTree db cid).projects.map Project.id).Nodup := by
  rw [pct_projects]
  exact ((List.filter_sublist _).map Project.id).nodup h

end InvoiceManager

namespace InvoiceManager

theorem k_dll_li (db : DB) (pid : Int) (i : Invoice)
    (hi : i ∈ db.invoices) (hip : i.project_id = pid) :
    ∀ li ∈ (delLineItemsByProject db pid).lineItems, li.invoice_id ≠ i.id := by
  intro li hmem heq
  simp only [delLineItemsByProject, List.mem_filter, Bool.not_eq_true',
    List.any_eq_false, Bool.and_eq_true, decide_eq_true_eq, not_and] at hmem
  exact hmem.2 i hi hip heq.symm

theorem k_dpc_li (db : DB) (pid : Int) (i : Invoice)
    (hi : i ∈ db.invoices) (hip : i.project_id = pid) :
    ∀ li ∈ (deleteProjectContents db pid).lineItems, li.invoice_id ≠ i.id :=
  k_dll_li db pid i hi hip

theorem k_foldDPC_li (ps : List Project) (db : DB) (p : Project) (i : Invoice)
    (hnd : (ps.map Project.id).Nodup) (hp : p ∈ ps)
    (hi : i ∈ db.invoices) (hip : i.project_id = p.id) :
    ∀ li ∈ (ps.foldl (fun a q => deleteProjectContents a q.id) db).lineItems,
      li.invoice_id ≠ i.id := by
  induction ps generalizing db with
  | nil => cases hp
  | cons q tail ih =>
      intro li hli
      rcases List.mem_cons.mp hp with hq | htail
      · subst hq
        have hmem : li ∈ (deleteProjectContents db p.id).lineItems :=
          (rp_foldDPC tail (deleteProjectContents db p.id)).2.2.2.2 li hli
        exact k_dpc_li db p.id i hi hip li hmem
      · have hqp : q.id ≠ p.id := by
          have hq1 : q.id ∉ tail.map Project.id := (List.nodup_cons.mp hnd).1
          intro h
          exact hq1 (h ▸ List.mem_map_of_mem Project.id htail)
        have hi2 : i ∈ (deleteProjectContents db q.id).invoices :=
          s_dpc_inv db q.id i hi (by rw [hip]; exact fun h => hqp h.symm)
        exact ih (deleteProjectContents db q.id) (List.nodup_cons.mp hnd).2 htail
          hi2 li hli

theorem k_pct_li (db : DB) (cid : Int) (p : Project) (i : Invoice)
    (hnd : (db.projects.map Project.id).Nodup)
    (hp : p ∈ db.projects) (hpc : p.client_id = cid)
    (hi : i ∈ db.invoices) (hip : i.project_id = p.id) :
    ∀ li ∈ (processClientTree db cid).lineItems, li.invoice_id ≠ i.id := by
  intro li hli
  have hps : p ∈ db.projects.filter (fun q => decide (q.client_id = cid)) := by
    simp [List.mem_filter, hp, hpc]
  have hnd2 : ((db.projects.filter (fun q => decide (q.client_id = cid))).map
      Project.id).Nodup :=
    ((List.filter_sublist _).map Project.id).nodup hnd
  exact k_foldDPC_li _ db p i hnd2 hps hi hip li hli

end InvoiceManager

namespace InvoiceManager

theorem k_foldPCT_proj (cs : List Client) (db : DB) (c : Client) (hc : c ∈ cs) :
    ∀ q ∈ (cs.foldl (fun a c2 => processClientTree a c2.id) db).projects,
      q.client_id ≠ c.id := by
  induction cs generalizing db with
  | nil => cases hc
  | cons c0 tail ih =>
      intro q hq
      rcases List.mem_cons.mp hc with h0 | htail
      · subst h0
        have hmem : q ∈ (processClientTree db c.id).projects :=
          (rp_foldPCT tail (processClientTree db c.id)).2.2.1 q hq
        rw [pct_projects] at hmem
        simp only [List.mem_filter, Bool.not_eq_true', decide_eq_false_iff_not] at hmem
        exact hmem.2
      · exact ih (processClientTree db c0.id) htail q hq

theorem k_foldPCT_inv (cs : List Client) (db : DB) (c : Client) (p : Project)
    (hnd : (cs.map Client.id).Nodup) (hc : c ∈ cs)
    (hp : p ∈ db.projects) (hpc : p.client_id = c.id) :
    ∀ i ∈ (cs.foldl (fun a c2 => processClientTree a c2.id) db).invoices,
      i.project_id ≠ p.id := by
  induction cs generalizing db with
  | nil => cases hc
  | cons c0 tail ih =>
      intro i hi
      rcases List.mem_cons.mp hc with h0 | htail
      · subst h0
        have hmem : i ∈ (processClientTree db c.id).invoices :=
          (rp_foldPCT tail (processClientTree db c.id)).2.2.2.1 i hi
        exact k_pct_inv db c.id p hp hpc i hmem
      · have hcc : c0.id ≠ c.id := by
          have h1 : c0.id ∉ tail.map Client.id := (List.nodup_cons.mp hnd).1
          intro h
          exact h1 (h ▸ List.mem_map_of_mem Client.id htail)
        have hp2 : p ∈ (processClientTree db c0.id).projects :=
          s_pct_proj db c0.id p hp (by rw [hpc]; exact fun h => hcc h.symm)
        exact ih (processClientTree db c0.id) (List.nodup_cons.mp hnd).2 htail
          hp2 i hi

theorem k_foldPCT_li (cs : List Client) (db : DB) (c : Client) (p : Project)
    (i : Invoice)
    (hndc : (cs.map Client.id).Nodup) (hndp : (db.projects.map Project.id).Nodup)
    (hc : c ∈ cs) (hp : p ∈ db.projects) (hpc : p.client_id = c.id)
    (hi : i ∈ db.invoices) (hip : i.project_id = p.id) :
    ∀ li ∈ (cs.foldl (fun a c2 => processClientTree a c2.id) db).lineItems,
      li.invoice_id ≠ i.id := by
  induction cs generalizing db with
  | nil => cases hc
  | cons c0 tail ih =>
      intro li hli
      rcases List.mem_cons.mp hc with h0 | htail
      · subst h0
        have hmem : li ∈ (processClientTree db c.id).lineItems :=
          (rp_foldPCT tail (processClientTree db c.id)).2.2.2.2 li hli
        exact k_pct_li db c.id p i hndp hp hpc hi hip li hmem
      · have hcc : c0.id ≠ c.id := by
          have h1 : c0.id ∉ tail.map Client.id := (List.nodup_cons.mp hndc).1
          intro h
          exact h1 (h ▸ List.mem_map_of_mem Client.id htail)
        have hp2 : p ∈ (processClientTree db c0.id).projects :=
          s_pct_proj db c0.id p hp (by rw [hpc]; exact fun h => hcc h.symm)
        have hi2 : i ∈ (processClientTree db c0.id).invoices := by
          refine s_pct_inv db c0.id i hi ?_
          intro q hq hqc hqid
          have hqp : q = p := by
            have := List.inj_on_of_nodup_map hndp hq hp
            exact this (by rw [hqid, hip])
          rw [hqp] at hqc
          rw [hpc] at hqc
          exact hcc hqc.symm
        exact ih (processClientTree db c0.id) (List.nodup_cons.mp hndc).2
          (nodup_pct_proj db c0.id hndp) htail hp2 hi2 li hli

end InvoiceManager

namespace InvoiceManager

/-- C2: `delete_profile` follows the source's deletion order (per client,
per project: line items, then invoices, then the client's projects; then
the profile's clients; finally the profile row — this order is the very
structure of `deleteProfile`), and on success no descendant row of the
profile remains: the profile row and its clients are gone, and no
project, invoice or line item reachable from the profile through the
parent chain recorded in the pre-state survives.  The `Nodup` hypotheses
say that primary keys are unique, as the database guarantees. -/
theorem deleteProfile_removes_subtree (db : DB) (id : Int)
    (hcl : (db.clients.map Client.id).Nodup)
    (hpr : (db.projects.map Project.id).Nodup) :
    (deleteProfile db id).profiles =
      db.profiles.filter (fun p => !decide (p.id = id)) ∧
    (deleteProfile db id).clients =
      db.clients.filter (fun c => !decide (c.profile_id = id)) ∧
    (∀ q ∈ (deleteProfile db id).projects,
      ∀ c ∈ db.clients, c.profile_id = id → q.client_id ≠ c.id) ∧
    (∀ i ∈ (deleteProfile db id).invoices,
      ∀ c ∈ db.clients, c.profile_id = id →
        ∀ p ∈ db.projects, p.client_id = c.id → i.project_id ≠ p.id) ∧
    (∀ li ∈ (deleteProfile db id).lineItems,
      ∀ c ∈ db.clients, c.profile_id = id →
        ∀ p ∈ db.projects, p.client_id = c.id →
          ∀ i ∈ db.invoices, i.project_id = p.id → li.invoice_id ≠ i.id) := by
  have hndcs : ((db.clients.filter (fun c => decide (c.profile_id = id))).map
      Client.id).Nodup :=
    ((List.filter_sublist _).map Client.id).nodup hcl
  refine ⟨?_, ?_, ?_, ?_, ?_⟩
  · have h : (deleteProfile db id).profiles =
        ((db.clients.filter (fun c => decide (c.profile_id = id))).foldl
          (fun a c => processClientTree a c.id) db).profiles.filter
            (fun p => !decide (p.id = id)) := rfl
    rw [h, foldPCT_profiles]
  · have h : (deleteProfile db id).clients =
        ((db.clients.filter (fun c => decide (c.profile_id = id))).foldl
          (fun a c => processClientTree a c.id) db).clients.filter
            (fun c => !decide (c.profile_id = id)) := rfl
    rw [h, foldPCT_clients]
  · intro q hq c hc hcp
    have hcmem : c ∈ db.clients.filter (fun c2 => decide (c2.profile_id = id)) := by
      simp [List.mem_filter, hc, hcp]
    exact k_foldPCT_proj _ db c hcmem q hq
  · intro i hi c hc hcp p hp hpc
    have hcmem : c ∈ db.clients.filter (fun c2 => decide (c2.profile_id = id)) := by
      simp [List.mem_filter, hc, hcp]
    exact k_foldPCT_inv _ db c p hndcs hcmem hp hpc i hi
  · intro li hli c hc hcp p hp hpc i hi hip
    have hcmem : c ∈ db.clients.filter (fun c2 => decide (c2.profile_id = id)) := by
      simp [List.mem_filter, hc, hcp]
    exact k_foldPCT_li _ db c p i hndcs hpr hcmem hp hpc hi hip li hli

/-- Witness for C2 on the concrete database `dbW` (one full
profile→client→project→invoice→line-item chain under profile 1). -/
theorem deleteProfile_removes_subtree_witness :
    (deleteProfile dbW 1).profiles =
      dbW.profiles.filter (fun p => !decide (p.id = 1)) ∧
    (deleteProfile dbW 1).clients =
      dbW.clients.filter (fun c => !decide (c.profile_id = 1)) ∧
    (∀ q ∈ (deleteProfile dbW 1).projects,
      ∀ c ∈ dbW.clients, c.profile_id = 1 → q.client_id ≠ c.id) ∧
    (∀ i ∈ (deleteProfile dbW 1).invoices,
      ∀ c ∈ dbW.clients, c.profile_id = 1 →
        ∀ p ∈ dbW.projects, p.client_id = c.id → i.project_id ≠ p.id) ∧
    (∀ li ∈ (deleteProfile dbW 1).lineItems,
      ∀ c ∈ dbW.clients, c.profile_id = 1 →
        ∀ p ∈ dbW.projects, p.client_id = c.id →
          ∀ i ∈ dbW.invoices, i.project_id = p.id → li.invoice_id ≠ i.id) :=
  deleteProfile_removes_subtree dbW 1 (by decide) (by decide)

end InvoiceManager

namespace InvoiceManager

/-- C4 counterexample: the invoice wizard's validity is **not** a
function of the committed `rate` field — `invW` has rate 5 > 0 and a
non-empty line-item list, yet `is_valid` is false because the non-empty
scratch buffer `"x"` does not parse and therefore counts as rate 0. -/
theorem is_valid_rate_field_counterexample :
    invW.rate = F64.finite 5 ∧ invW.rate.gtZero = true ∧
    invW.line_items ≠ [] ∧ invW.is_valid = false := by
  decide

/-- C4 (amended): `is_valid` is exactly the conjunction of the required
non-emptiness checks — Profile: name, email, phone, bank name, bank
account, bank routing; Client: name, email, phone; Project: name;
Invoice: at least one line item and an effective rate comparing greater
than zero under `f64` ordering, where the effective rate is the parsed
scratch buffer when that buffer is non-empty (0 when it does not parse,
so NaN and unparsable text fail) and the committed rate otherwise. -/
theorem is_valid_required_fields (p : ProfileWizardState) (c : ClientWizardState)
    (pr : ProjectWizardState) (iv : InvoiceWizardState) :
    (p.is_valid = true ↔
      p.profile.name ≠ [] ∧ p.profile.email ≠ [] ∧ p.profile.phonenumber ≠ [] ∧
      p.profile.bank_name ≠ [] ∧ p.profile.bank_account_number ≠ [] ∧
      p.profile.bank_routing_number ≠ []) ∧
    (c.is_valid = true ↔
      c.client.name ≠ [] ∧ c.client.email ≠ [] ∧ c.client.phone ≠ []) ∧
    (pr.is_valid = true ↔ pr.project.name ≠ []) ∧
    (iv.is_valid = true ↔
      ((if iv.active_input.isEmpty then iv.rate
        else (parseF64 iv.active_input).getD (F64.finite 0)).gtZero = true ∧
       iv.line_items ≠ [])) := by
  refine ⟨?_, ?_, ?_, ?_⟩
  · simp [ProfileWizardState.is_valid, List.isEmpty_iff, and_assoc]
  · simp [ClientWizardState.is_valid, List.isEmpty_iff, and_assoc]
  · simp [ProjectWizardState.is_valid, List.isEmpty_iff]
  · by_cases hb : iv.active_input.isEmpty <;>
      simp [InvoiceWizardState.is_valid, hb, List.isEmpty_iff, and_comm]

/-- C9 counterexample: the email overlay's field navigation does **not**
wrap around — `next_field` at the ready-to-send pseudo-field stays
there (the claim says it returns to RecipientEmail), and
`previous_field` at RecipientEmail stays there (the claim says it goes
to ready-to-send). -/
theorem email_field_no_wraparound_counterexample :
    (emW.next_field).current_field = EmailField.none ∧
    ¬ (emW.next_field).current_field = EmailField.recipientEmail ∧
    ((EmailWizardState.new 1000).previous_field).current_field
      = EmailField.recipientEmail ∧
    ¬ ((EmailWizardState.new 1000).previous_field).current_field
      = EmailField.none := by
  decide

/-- C9 (amended): Tab maps to `next_field` and Shift+Tab to
`previous_field`; navigation runs RecipientEmail → Subject → Message →
ready-to-send forward and backward, but **saturates** at both ends
instead of wrapping around. -/
theorem email_field_cycle_saturating (s : EmailWizardState) :
    s.onTab false = s.next_field ∧
    s.onTab true = s.previous_field ∧
    (s.next_field).current_field =
      (match s.current_field with
       | .recipientEmail => EmailField.subject
       | .subject => EmailField.message
       | .message => EmailField.none
       | .none => EmailField.none) ∧
    (s.previous_field).current_field =
      (match s.current_field with
       | .recipientEmail => EmailField.recipientEmail
       | .subject => EmailField.recipientEmail
       | .message => EmailField.subject
       | .none => EmailField.message) := by
  refine ⟨rfl, rfl, ?_, ?_⟩ <;>
    cases h : s.current_field <;>
      simp [EmailWizardState.next_field, EmailWizardState.previous_field, h]

/-- C6: the Navigator's direct Project delete is a plain single-row
delete: only the `projects` row with the given id disappears, every
other table (profiles, clients, invoices, line items) is untouched — in
particular the project's invoices and their line items survive — and
the handler then reloads the Projects(client) list from the updated
database. -/
theorem deleteProject_single_row_and_reload (db : DB) (cid pid : Int) :
    (handleDeleteProject db cid pid).1.projects
      = db.projects.filter (fun p => !decide (p.id = pid)) ∧
    (handleDeleteProject db cid pid).1.profiles = db.profiles ∧
    (handleDeleteProject db cid pid).1.clients = db.clients ∧
    (handleDeleteProject db cid pid).1.invoices = db.invoices ∧
    (handleDeleteProject db cid pid).1.lineItems = db.lineItems ∧
    (handleDeleteProject db cid pid).2
      = loadProjectsByClient (deleteProject db pid) cid ∧
    (∀ p, p ∈ (handleDeleteProject db cid pid).2 ↔
      p ∈ db.projects ∧ p.client_id = cid ∧ p.id ≠ pid) := by
  refine ⟨rfl, rfl, rfl, rfl, rfl, rfl, ?_⟩
  intro p
  constructor
  · intro hp
    have h1 : p ∈ (deleteProject db pid).projects.filter
        (fun q => decide (q.client_id = cid)) := List.mem_mergeSort.mp hp
    rw [List.mem_filter] at h1
    have h2 := h1.1
    simp only [deleteProject, List.mem_filter, Bool.not_eq_true',
      decide_eq_false_iff_not] at h2
    exact ⟨h2.1, by simpa using h1.2, h2.2⟩
  · intro ⟨h1, h2, h3⟩
    refine List.mem_mergeSort.mpr ?_
    rw [List.mem_filter]
    refine ⟨?_, by simpa using h2⟩
    simp only [deleteProject, List.mem_filter, Bool.not_eq_true',
      decide_eq_false_iff_not]
    exact ⟨h1, h3⟩

end InvoiceManager

namespace InvoiceManager

/-- C5 counterexample: committing Hours with scratch text `"-5"` — which
does **not** parse as a non-negative number — is nevertheless accepted:
the negative value is stored, editing ends, and no inline error is
shown (the source's `value.parse::<f64>()` has no sign check). -/
theorem parseF64_neg_five : parseF64 ['-', '5'] = some (F64.finite (-5)) := by
  have hdec : parseDecMag ['5'] = some (5, 0) := by decide
  have hexp : expOf 5 1 = 2 := by decide
  have hm : roundMantissa 5 1 50 = 5629499534213120 := by decide
  have hval : ((5629499534213120 : ℚ) * (2 : ℚ) ^ ((2 : Int) - 52)) = 5 := by
    norm_num [zpow_sub₀]
  have hround : roundPosF64 5 1 = some 5 := by
    unfold roundPosF64
    rw [hexp]
    rw [if_neg (by norm_num)]
    norm_num [hm, hval]
  unfold parseF64
  rw [if_neg (by decide), if_neg (by decide)]
  show ((parseDecMag ['5']).map (fun np => decToF64 true np.1 np.2))
      = some (F64.finite (-5))
  rw [hdec, Option.map_some']
  unfold decToF64
  rw [if_neg (by norm_num)]
  norm_num [hround]

theorem hours_commit_negative_counterexample :
    parseF64 ['-', '5'] = some (F64.finite (-5)) ∧
    (liW.next_field_in_line_item).line_items.map InvoiceLineItem.hours
      = [F64.finite (-5)] ∧
    (liW.next_field_in_line_item).editing_line_item = none ∧
    (liW.next_field_in_line_item).show_error = none := by
  refine ⟨parseF64_neg_five, ?_, ?_, ?_⟩ <;>
    simp [liW, baseInvW, InvoiceWizardState.next_field_in_line_item,
      parseF64_neg_five]

/-- C5 (amended): committing the Hours field requires the scratch text
to parse as an `f64` — negative values and the textual `inf` /
`infinity` / `NaN` forms included; on success the parsed value is stored
and editing ends, on parse failure an inline error message is shown
while the editor stays on the Hours field with the invalid scratch text
and the line items unchanged. -/
theorem hours_commit_parse (s : InvoiceWizardState) (idx : Nat) (value : Str)
    (h : s.editing_line_item = some (idx, LineItemField.hours, value))
    (hlen : idx < s.line_items.length) :
    (∀ q : F64, parseF64 value = some q →
      (s.next_field_in_line_item).line_items
        = s.line_items.set idx
            { s.line_items.getD idx dfltLineItem with hours := q } ∧
      (s.next_field_in_line_item).editing_line_item = none ∧
      (s.next_field_in_line_item).show_error = s.show_error) ∧
    (parseF64 value = none →
      (s.next_field_in_line_item).show_error = some invalidHoursMsg ∧
      (s.next_field_in_line_item).editing_line_item
        = some (idx, LineItemField.hours, value) ∧
      (s.next_field_in_line_item).line_items = s.line_items) := by
  constructor
  · intro q hq
    simp [InvoiceWizardState.next_field_in_line_item, h, hlen, hq]
  · intro hq
    simp [InvoiceWizardState.next_field_in_line_item, h, hlen, hq]

theorem parseF64_two_point_five :
    parseF64 ['2', '.', '5'] = some (F64.finite ((5 : ℚ) / 2)) := by
  have hdec : parseDecMag ['2', '.', '5'] = some (25, -1) := by decide
  have hexp : expOf 25 10 = 1 := by decide
  have hm : roundMantissa 25 10 51 = 5629499534213120 := by decide
  have hval : ((5629499534213120 : ℚ) * (2 : ℚ) ^ ((1 : Int) - 52)) = 5 / 2 := by
    norm_num [zpow_sub₀]
  have hround : roundPosF64 25 10 = some (5 / 2) := by
    unfold roundPosF64
    rw [hexp]
    rw [if_neg (by norm_num)]
    norm_num [hm, hval]
  unfold parseF64
  rw [if_neg (by decide), if_neg (by decide)]
  show ((parseDecMag ['2', '.', '5']).map (fun np => decToF64 false np.1 np.2))
      = some (F64.finite ((5 : ℚ) / 2))
  rw [hdec, Option.map_some']
  unfold decToF64
  rw [if_neg (by norm_num)]
  norm_num [hround]

/-- Witness for C5 on `liW2` (Hours scratch text `"2.5"`). -/
theorem hours_commit_parse_witness :
    (liW2.next_field_in_line_item).line_items
      = liW2.line_items.set 0
          { liW2.line_items.getD 0 dfltLineItem with
              hours := F64.finite ((5 : ℚ) / 2) } ∧
    (liW2.next_field_in_line_item).editing_line_item = none ∧
    (liW2.next_field_in_line_item).show_error = liW2.show_error :=
  (hours_commit_parse liW2 0 ['2', '.', '5'] rfl (by decide)).1
    (F64.finite ((5 : ℚ) / 2)) parseF64_two_point_five

end InvoiceManager

namespace InvoiceManager

theorem natDigits_ne_nil (n : Nat) : natDigits n ≠ [] := by
  unfold natDigits
  split
  · simp
  · rename_i h
    unfold natDigitsAux
    simp [h]

theorem f64ToChars_ne_nil (x : F64) : f64ToChars x ≠ [] := by
  cases x with
  | finite q =>
      simp only [f64ToChars]
      intro hcon
      rcases List.append_eq_nil.mp hcon with ⟨h1, h2⟩
      exact natDigits_ne_nil _ (List.append_eq_nil.mp h1).2
  | inf => decide
  | negInf => decide
  | nan => decide

/-- C10: with a non-empty rate scratch buffer the buffer, not the
committed rate field, decides validity and the saved invoice: the `Esc`
exit from edit mode never touches the buffer (only entering edit mode on
the Rate field rewrites it, to the committed rate's never-empty display
string); `is_valid` requires the parsed buffer (0 when unparsable) to
compare greater than zero; and `to_invoice` saves the parsed buffer
value, falling back to the committed rate only when the buffer does not
parse. -/
theorem rate_buffer_drives_validity_and_save (s : InvoiceWizardState) :
    (s.onEsc).1.active_input = s.active_input ∧
    (s.editing = false → s.current_field = InvoiceField.rate →
      ((s.toggle_editing).active_input = f64ToChars s.rate ∧
       f64ToChars s.rate ≠ [])) ∧
    (s.active_input ≠ [] →
      ((s.is_valid = true ↔
         (((parseF64 s.active_input).getD (F64.finite 0)).gtZero = true ∧
          s.line_items ≠ [])) ∧
       (∀ ts : Int, (s.to_invoice ts).rate = (parseF64 s.active_input).getD s.rate))) := by
  refine ⟨?_, ?_, ?_⟩
  · by_cases he : s.editing <;>
      simp [InvoiceWizardState.onEsc, InvoiceWizardState.toggle_editing, he]
  · intro he hcf
    simp [InvoiceWizardState.toggle_editing, he, hcf, f64ToChars_ne_nil]
  · intro hne
    have hb : s.active_input.isEmpty = false := by
      simp [List.isEmpty_iff, hne]
    constructor
    · simp [InvoiceWizardState.is_valid, hb, List.isEmpty_iff, and_comm]
    · intro ts
      simp [InvoiceWizardState.to_invoice, hb]

/-- Witness for C10 on `invW` (non-empty, unparsable buffer `"x"`). -/
theorem rate_buffer_drives_validity_and_save_witness :
    (invW.onEsc).1.active_input = invW.active_input ∧
    ((invW.toggle_editing).active_input = f64ToChars invW.rate ∧
      f64ToChars invW.rate ≠ []) ∧
    ((invW.is_valid = true ↔
       (((parseF64 invW.active_input).getD (F64.finite 0)).gtZero = true ∧
        invW.line_items ≠ [])) ∧
     (∀ ts : Int, (invW.to_invoice ts).rate = (parseF64 invW.active_input).getD invW.rate)) :=
  ⟨(rate_buffer_drives_validity_and_save invW).1,
   (rate_buffer_drives_validity_and_save invW).2.1 (by decide) (by decide),
   (rate_buffer_drives_validity_and_save invW).2.2 (by decide)⟩

end InvoiceManager

namespace InvoiceManager

theorem cleanupStep_eq (po : Option Str) (fs : FS) :
    cleanupStep po fs = Except.ok (eraseOpt fs po) := by
  cases po with
  | none => rfl
  | some p =>
      by_cases h : p ∈ fs
      · simp [cleanupStep, pathExists, h, removeFile, eraseOpt]
      · have hf : fs.filter (fun q => !decide (q = p)) = fs :=
          List.filter_eq_self.mpr (by
            intro a ha
            simp only [Bool.not_eq_true', decide_eq_false_iff_not]
            intro hap
            exact h (hap ▸ ha))
        simp [cleanupStep, pathExists, h, eraseOpt, hf, pure, Except.pure]

theorem cleanup_files_eq (s : EmailWizardState) (fs : FS) :
    s.cleanup_files fs
      = Except.ok (eraseOpt (eraseOpt fs s.generated_md_path) s.generated_pdf_path) := by
  simp [EmailWizardState.cleanup_files, cleanupStep_eq, bind, Except.bind, pure, Except.pure]

theorem mem_eraseOpt {x : Str} (fs : FS) (po : Option Str) :
    x ∈ eraseOpt fs po ↔ x ∈ fs ∧ po ≠ some x := by
  cases po with
  | none => simp [eraseOpt]
  | some p =>
      simp only [eraseOpt, List.mem_filter, Bool.not_eq_true', decide_eq_false_iff_not]
      constructor
      · intro hx
        exact ⟨hx.1, fun hcon => hx.2 (Option.some.inj hcon).symm⟩
      · intro hx
        exact ⟨hx.1, fun hxp => hx.2 (congrArg some hxp.symm)⟩

theorem eraseOpt_eq_self (fs : FS) (po : Option Str)
    (h : ∀ p, po = some p → p ∉ fs) : eraseOpt fs po = fs := by
  cases po with
  | none => rfl
  | some p =>
      refine List.filter_eq_self.mpr ?_
      intro a ha
      simp only [Bool.not_eq_true', decide_eq_false_iff_not]
      intro hap
      exact h p rfl (hap ▸ ha)

theorem dismiss_eq (s : EmailWizardState) (fs : FS) :
    s.dismiss fs
      = ({ s with dismissing := true },
         eraseOpt (eraseOpt fs s.generated_md_path) s.generated_pdf_path) := by
  simp [EmailWizardState.dismiss, cleanup_files_eq]

/-- C7: cancelling the email overlay dismisses it and removes both
recorded generated artifacts from the file system, whatever the state
(any focused field, including a just-opened overlay); `cleanup_files`
never errors (a recorded file that is already missing is skipped), and
cleanup is idempotent: a second run on the dismissed state returns the
file system unchanged. -/
theorem email_cancel_cleanup (s : EmailWizardState) (fs : FS) :
    s.cleanup_files fs
      = Except.ok (eraseOpt (eraseOpt fs s.generated_md_path) s.generated_pdf_path) ∧
    (∀ p, s.generated_md_path = some p → p ∉ (s.dismiss fs).2) ∧
    (∀ p, s.generated_pdf_path = some p → p ∉ (s.dismiss fs).2) ∧
    (s.dismiss fs).1.cleanup_files (s.dismiss fs).2
      = Except.ok ((s.dismiss fs).2) ∧
    ((∀ p, s.generated_md_path = some p → p ∉ fs) →
     (∀ p, s.generated_pdf_path = some p → p ∉ fs) →
      s.cleanup_files fs = Except.ok fs) ∧
    (handleEmailCancel s fs).1 = Option.none ∧
    (handleEmailCancel s fs).2 = (s.dismiss fs).2 := by
  have hmd : ∀ p, s.generated_md_path = some p → p ∉ (s.dismiss fs).2 := by
    intro p hp hmem
    rw [dismiss_eq] at hmem
    have h1 := (mem_eraseOpt _ _).mp hmem
    have h2 := (mem_eraseOpt _ _).mp h1.1
    exact h2.2 (by rw [hp])
  have hpdf : ∀ p, s.generated_pdf_path = some p → p ∉ (s.dismiss fs).2 := by
    intro p hp hmem
    rw [dismiss_eq] at hmem
    have h1 := (mem_eraseOpt _ _).mp hmem
    exact h1.2 (by rw [hp])
  refine ⟨cleanup_files_eq s fs, hmd, hpdf, ?_, ?_, rfl, rfl⟩
  · have hpaths1 : (s.dismiss fs).1.generated_md_path = s.generated_md_path := by
      rw [dismiss_eq]
    have hpaths2 : (s.dismiss fs).1.generated_pdf_path = s.generated_pdf_path := by
      rw [dismiss_eq]
    rw [cleanup_files_eq, hpaths1, hpaths2]
    rw [eraseOpt_eq_self _ _ (fun p hp => hmd p hp)]
    rw [eraseOpt_eq_self _ _ (fun p hp => hpdf p hp)]
  · intro h1 h2
    rw [cleanup_files_eq]
    rw [eraseOpt_eq_self fs _ h1]
    rw [eraseOpt_eq_self fs _ h2]

/-- Witness for C7 on `emF` (both artifacts recorded) over `fsW` (both
files present plus one unrelated file). -/
theorem email_cancel_cleanup_witness :
    "invoices/invoice_7.md".data ∉ (emF.dismiss fsW).2 ∧
    "invoices/invoice_7.pdf".data ∉ (emF.dismiss fsW).2 ∧
    (emF.dismiss fsW).1.cleanup_files (emF.dismiss fsW).2
      = Except.ok ((emF.dismiss fsW).2) :=
  ⟨(email_cancel_cleanup emF fsW).2.1 _ rfl,
   (email_cancel_cleanup emF fsW).2.2.1 _ rfl,
   (email_cancel_cleanup emF fsW).2.2.2.1⟩

end InvoiceManager

namespace InvoiceManager

theorem fromYmdOpt_eq_some {y : Int} {m d : Nat} {x : Date}
    (h : fromYmdOpt y m d = some x) :
    x = ⟨y, m, d⟩ ∧ 1 ≤ m ∧ m ≤ 12 ∧ 1 ≤ d ∧ d ≤ daysInMonth y m := by
  unfold fromYmdOpt at h
  split at h
  · rename_i hc
    cases h
    exact ⟨rfl, hc.1, hc.2.1, hc.2.2.1, hc.2.2.2⟩
  · cases h

theorem fromYmdOpt_valid {y : Int} {m d : Nat}
    (h : 1 ≤ m ∧ m ≤ 12 ∧ 1 ≤ d ∧ d ≤ daysInMonth y m) :
    fromYmdOpt y m d = some ⟨y, m, d⟩ := by
  unfold fromYmdOpt
  rw [if_pos h]

theorem commitDigit_below (s : DateInputState) (buf : Str)
    (h : buf.length < widthOf s.date_part) :
    s.commitDigit buf = { s with current_date_input := buf } := by
  cases hp : s.date_part
  · rw [hp] at h
    simp only [widthOf] at h
    simp only [DateInputState.commitDigit, hp]
    rw [if_neg (by omega), if_neg (by omega)]
  · rw [hp] at h
    simp only [widthOf] at h
    simp only [DateInputState.commitDigit, hp]
    rw [if_neg (by omega)]
  · rw [hp] at h
    simp only [widthOf] at h
    simp only [DateInputState.commitDigit, hp]
    rw [if_neg (by omega)]

theorem commitDigit_at_year (s : DateInputState) (buf : Str)
    (hp : s.date_part = DatePart.year) (h : buf.length = 4) :
    (s.commitDigit buf).current_date_input = [] ∧
    (s.commitDigit buf).editing = s.editing ∧
    (s.commitDigit buf).date_part = s.date_part ∧
    (s.commitDigit buf).date.month = s.date.month ∧
    (s.commitDigit buf).date.day = s.date.day ∧
    ((s.commitDigit buf).date ≠ s.date →
      ∃ v, parseI32 buf = some v ∧ 1900 ≤ v ∧ v ≤ 2100 ∧
        (s.commitDigit buf).date.year = v) := by
  simp only [DateInputState.commitDigit, hp]
  rw [if_pos h]
  cases hpar : parseI32 buf with
  | none => simp [hpar, hp]
  | some v =>
      simp only [hpar]
      by_cases hb : 1900 ≤ v ∧ v ≤ 2100
      · rw [if_pos hb]
        cases hymd : fromYmdOpt v s.date.month s.date.day with
        | none => simp [hymd, hp]
        | some nd =>
            obtain ⟨hnd, _⟩ := fromYmdOpt_eq_some hymd
            subst hnd
            exact ⟨trivial, rfl, rfl, rfl, rfl, fun _ => ⟨v, rfl, hb.1, hb.2, rfl⟩⟩
      · rw [if_neg hb]
        simp [hp]

theorem commitDigit_at_month (s : DateInputState) (buf : Str)
    (hp : s.date_part = DatePart.month) (h : buf.length = 2) :
    (s.commitDigit buf).current_date_input = [] ∧
    (s.commitDigit buf).editing = s.editing ∧
    (s.commitDigit buf).date_part = s.date_part ∧
    (s.commitDigit buf).date.year = s.date.year ∧
    (s.commitDigit buf).date.day = s.date.day ∧
    ((s.commitDigit buf).date ≠ s.date →
      ∃ n, parseU32 buf = some n ∧ 1 ≤ n ∧ n ≤ 12 ∧
        (s.commitDigit buf).date.month = n) := by
  simp only [DateInputState.commitDigit, hp]
  rw [if_pos h]
  cases hpar : parseU32 buf with
  | none => simp [hpar, hp]
  | some n =>
      simp only [hpar]
      by_cases hb : 1 ≤ n ∧ n ≤ 12
      · rw [if_pos hb]
        cases hymd : fromYmdOpt s.date.year n s.date.day with
        | none => simp [hymd, hp]
        | some nd =>
            obtain ⟨hnd, _⟩ := fromYmdOpt_eq_some hymd
            subst hnd
            exact ⟨trivial, rfl, rfl, rfl, rfl, fun _ => ⟨n, rfl, hb.1, hb.2, rfl⟩⟩
      · rw [if_neg hb]
        simp [hp]

theorem commitDigit_at_day (s : DateInputState) (buf : Str)
    (hp : s.date_part = DatePart.day) (h : buf.length = 2) :
    (s.commitDigit buf).current_date_input = [] ∧
    (s.commitDigit buf).editing = s.editing ∧
    (s.commitDigit buf).date_part = s.date_part ∧
    (s.commitDigit buf).date.year = s.date.year ∧
    (s.commitDigit buf).date.month = s.date.month ∧
    ((s.commitDigit buf).date ≠ s.date →
      ∃ n, parseU32 buf = some n ∧ 1 ≤ n ∧
        n ≤ daysInMonth s.date.year s.date.month ∧
        (s.commitDigit buf).date.day = n) := by
  simp only [DateInputState.commitDigit, hp]
  rw [if_pos h]
  cases hpar : parseU32 buf with
  | none => simp [hpar, hp]
  | some n =>
      simp only [hpar]
      by_cases hb : 1 ≤ n ∧ n ≤ daysInMonth s.date.year s.date.month
      · rw [if_pos hb]
        cases hymd : fromYmdOpt s.date.year s.date.month n with
        | none => simp [hymd, hp]
        | some nd =>
            obtain ⟨hnd, _⟩ := fromYmdOpt_eq_some hymd
            subst hnd
            exact ⟨trivial, rfl, rfl, rfl, rfl, fun _ => ⟨n, rfl, hb.1, hb.2, rfl⟩⟩
      · rw [if_neg hb]
        simp [hp]

end InvoiceManager

namespace InvoiceManager

/-- C3: while editing, a digit key appends to the scratch buffer (and
changes nothing else) until the buffer reaches the focused part's
expected width (4 for year, 2 for month and day); at that width the
buffer is parsed and cleared whether or not the value was valid, the
editing flag, focused part and non-focused date parts are untouched, and
the focused part is replaced **only if** the parsed value lies within
bounds (year 1900–2100; month 1–12; day 1..days-in-month under the
Gregorian leap-year rule implemented by `days_in_month`). -/
theorem date_input_digit (s : DateInputState) (c : Char)
    (he : s.editing = true) (hd : c.isDigit = true) :
    ((s.current_date_input ++ [c]).length < widthOf s.date_part →
      s.handle_input (KeyCode.char c)
        = { s with current_date_input := s.current_date_input ++ [c] }) ∧
    ((s.current_date_input ++ [c]).length = widthOf s.date_part →
      (s.handle_input (KeyCode.char c)).current_date_input = [] ∧
      (s.handle_input (KeyCode.char c)).editing = true ∧
      (s.handle_input (KeyCode.char c)).date_part = s.date_part ∧
      partsOtherEq s.date (s.handle_input (KeyCode.char c)).date s.date_part ∧
      ((s.handle_input (KeyCode.char c)).date ≠ s.date →
        ∃ v, parseFor s.date_part (s.current_date_input ++ [c]) = some v ∧
          inBoundsFor s s.date_part v ∧
          partValue (s.handle_input (KeyCode.char c)).date s.date_part = v)) := by
  have hred : s.handle_input (KeyCode.char c)
      = s.commitDigit (s.current_date_input ++ [c]) := by
    simp [DateInputState.handle_input, he, hd]
  constructor
  · intro hlen
    rw [hred]
    exact commitDigit_below s _ hlen
  · intro hlen
    rw [hred] at *
    cases hp : s.date_part with
    | year =>
        rw [hp] at hlen
        simp only [widthOf] at hlen
        obtain ⟨h1, h2, h3, h4, h5, h6⟩ := commitDigit_at_year s _ hp hlen
        refine ⟨h1, by rw [h2, he], by rw [h3, hp], ?_, ?_⟩
        · exact ⟨h4.symm, h5.symm⟩
        · intro hne
          obtain ⟨v, hv, hb1, hb2, hy⟩ := h6 hne
          exact ⟨v, hv, ⟨hb1, hb2⟩, hy⟩
    | month =>
        rw [hp] at hlen
        simp only [widthOf] at hlen
        obtain ⟨h1, h2, h3, h4, h5, h6⟩ := commitDigit_at_month s _ hp hlen
        refine ⟨h1, by rw [h2, he], by rw [h3, hp], ?_, ?_⟩
        · exact ⟨h4.symm, h5.symm⟩
        · intro hne
          obtain ⟨n, hn, hb1, hb2, hm⟩ := h6 hne
          refine ⟨(n : Int), ?_, ?_, ?_⟩
          · show (parseU32 _).map (fun k => (k : Int)) = some (n : Int)
            rw [hn]
            rfl
          · exact ⟨by exact_mod_cast hb1, by exact_mod_cast hb2⟩
          · show ((s.commitDigit _).date.month : Int) = (n : Int)
            rw [hm]
    | day =>
        rw [hp] at hlen
        simp only [widthOf] at hlen
        obtain ⟨h1, h2, h3, h4, h5, h6⟩ := commitDigit_at_day s _ hp hlen
        refine ⟨h1, by rw [h2, he], by rw [h3, hp], ?_, ?_⟩
        · exact ⟨h4.symm, h5.symm⟩
        · intro hne
          obtain ⟨n, hn, hb1, hb2, hdy⟩ := h6 hne
          refine ⟨(n : Int), ?_, ?_, ?_⟩
          · show (parseU32 _).map (fun k => (k : Int)) = some (n : Int)
            rw [hn]
            rfl
          · exact ⟨by exact_mod_cast hb1, by exact_mod_cast hb2⟩
          · show ((s.commitDigit _).date.day : Int) = (n : Int)
            rw [hdy]

end InvoiceManager

namespace InvoiceManager

/-- Witness for C3 on `dsW`: typing `3` completes the month buffer
`"03"`, which commits month 3. -/
theorem date_input_digit_witness :
    (dsW.handle_input (KeyCode.char '3')).current_date_input = [] ∧
    (dsW.handle_input (KeyCode.char '3')).editing = true ∧
    (dsW.handle_input (KeyCode.char '3')).date_part = dsW.date_part ∧
    partsOtherEq dsW.date (dsW.handle_input (KeyCode.char '3')).date dsW.date_part ∧
    ((dsW.handle_input (KeyCode.char '3')).date ≠ dsW.date →
      ∃ v, parseFor dsW.date_part (dsW.current_date_input ++ ['3']) = some v ∧
        inBoundsFor dsW dsW.date_part v ∧
        partValue (dsW.handle_input (KeyCode.char '3')).date dsW.date_part = v) :=
  (date_input_digit dsW '3' rfl (by decide)).2 (by decide)

theorem natDigit_isDigit {k : Nat} (h : k < 10) : (natDigit k).isDigit = true := by
  interval_cases k <;> decide

theorem digitVal_natDigit {k : Nat} (h : k < 10) : digitVal (natDigit k) = k := by
  interval_cases k <;> decide

theorem natDigit_ne_minus {k : Nat} (h : k < 10) : ¬ natDigit k = '-' := by
  interval_cases k <;> decide

theorem natDigit_ne_plus {k : Nat} (h : k < 10) : ¬ natDigit k = '+' := by
  interval_cases k <;> decide

theorem parseNatDigits_digits4 {n : Nat} (h : n ≤ 9999) :
    parseNatDigits (natToDigits4 n) = some n := by
  have h1 : n / 1000 % 10 < 10 := Nat.mod_lt _ (by norm_num)
  have h2 : n / 100 % 10 < 10 := Nat.mod_lt _ (by norm_num)
  have h3 : n / 10 % 10 < 10 := Nat.mod_lt _ (by norm_num)
  have h4 : n % 10 < 10 := Nat.mod_lt _ (by norm_num)
  unfold parseNatDigits natToDigits4
  rw [if_pos (by simp [natDigit_isDigit, h1, h2, h3, h4])]
  simp only [List.foldl_cons, List.foldl_nil]
  rw [digitVal_natDigit h1, digitVal_natDigit h2, digitVal_natDigit h3,
    digitVal_natDigit h4]
  congr 1
  omega

theorem parseNatDigits_digits2 {n : Nat} (h : n ≤ 99) :
    parseNatDigits (natToDigits2 n) = some n := by
  have h1 : n / 10 % 10 < 10 := Nat.mod_lt _ (by norm_num)
  have h2 : n % 10 < 10 := Nat.mod_lt _ (by norm_num)
  unfold parseNatDigits natToDigits2
  rw [if_pos (by simp [natDigit_isDigit, h1, h2])]
  simp only [List.foldl_cons, List.foldl_nil]
  rw [digitVal_natDigit h1, digitVal_natDigit h2]
  congr 1
  omega

theorem parseI32_digits4 {n : Nat} (h : n ≤ 9999) :
    parseI32 (natToDigits4 n) = some (n : Int) := by
  have h1 : n / 1000 % 10 < 10 := Nat.mod_lt _ (by norm_num)
  unfold parseI32
  split
  · rename_i rest heq
    exfalso
    simp only [natToDigits4, List.cons.injEq] at heq
    exact natDigit_ne_minus h1 heq.1
  · rename_i rest heq
    exfalso
    simp only [natToDigits4, List.cons.injEq] at heq
    exact natDigit_ne_plus h1 heq.1
  · rw [parseNatDigits_digits4 h]
    simp only [Option.some_bind]
    rw [if_pos (by omega)]

theorem parseU32_digits2 {n : Nat} (h : n ≤ 99) :
    parseU32 (natToDigits2 n) = some n := by
  have h1 : n / 10 % 10 < 10 := Nat.mod_lt _ (by norm_num)
  unfold parseU32
  split
  · rename_i rest heq
    exfalso
    simp only [natToDigits2, List.cons.injEq] at heq
    exact natDigit_ne_plus h1 heq.1
  · rw [parseNatDigits_digits2 h]
    simp only [Option.some_bind]
    rw [if_pos (by omega)]

end InvoiceManager

namespace InvoiceManager

theorem year_retype (yy : Int) (mm dd : Nat)
    (hy1 : 1900 ≤ yy) (hy2 : yy ≤ 2100)
    (hv : 1 ≤ mm ∧ mm ≤ 12 ∧ 1 ≤ dd ∧ dd ≤ daysInMonth yy mm) :
    replay ⟨⟨yy, mm, dd⟩, true, DatePart.year, []⟩
      ((natToDigits4 yy.toNat).map KeyCode.char)
      = ⟨⟨yy, mm, dd⟩, true, DatePart.year, []⟩ := by
  have h9 : yy.toNat ≤ 9999 := by omega
  have h1 : yy.toNat / 1000 % 10 < 10 := Nat.mod_lt _ (by norm_num)
  have h2 : yy.toNat / 100 % 10 < 10 := Nat.mod_lt _ (by norm_num)
  have h3 : yy.toNat / 10 % 10 < 10 := Nat.mod_lt _ (by norm_num)
  have h4 : yy.toNat % 10 < 10 := Nat.mod_lt _ (by norm_num)
  have hcast : ((yy.toNat : Int)) = yy := Int.toNat_of_nonneg (by omega)
  have hp4 : parseI32 [natDigit (yy.toNat / 1000 % 10), natDigit (yy.toNat / 100 % 10),
      natDigit (yy.toNat / 10 % 10), natDigit (yy.toNat % 10)] = some yy := by
    have h := parseI32_digits4 h9
    rw [natToDigits4] at h
    rw [h, hcast]
  have hymd : fromYmdOpt yy mm dd = some ⟨yy, mm, dd⟩ := fromYmdOpt_valid hv
  simp [natToDigits4, replay, DateInputState.handle_input, DateInputState.commitDigit,
    natDigit_isDigit h1, natDigit_isDigit h2, natDigit_isDigit h3,
    natDigit_isDigit h4, hp4, hymd, hy1, hy2]

theorem month_retype (yy : Int) (mm dd : Nat)
    (hv : 1 ≤ mm ∧ mm ≤ 12 ∧ 1 ≤ dd ∧ dd ≤ daysInMonth yy mm) :
    replay ⟨⟨yy, mm, dd⟩, true, DatePart.month, []⟩
      ((natToDigits2 mm).map KeyCode.char)
      = ⟨⟨yy, mm, dd⟩, true, DatePart.month, []⟩ := by
  have h1 : mm / 10 % 10 < 10 := Nat.mod_lt _ (by norm_num)
  have h2 : mm % 10 < 10 := Nat.mod_lt _ (by norm_num)
  have hp2 : parseU32 [natDigit (mm / 10 % 10), natDigit (mm % 10)] = some mm := by
    have h := parseU32_digits2 (n := mm) (by omega)
    rw [natToDigits2] at h
    exact h
  have hymd : fromYmdOpt yy mm dd = some ⟨yy, mm, dd⟩ := fromYmdOpt_valid hv
  simp [natToDigits2, replay, DateInputState.handle_input, DateInputState.commitDigit,
    natDigit_isDigit h1, natDigit_isDigit h2, hp2, hymd, hv.1, hv.2.1]

theorem daysInMonth_le (y : Int) (m : Nat) : daysInMonth y m ≤ 31 := by
  unfold daysInMonth
  split <;> first
  | (split <;> norm_num)
  | norm_num

theorem day_retype (yy : Int) (mm dd : Nat)
    (hv : 1 ≤ mm ∧ mm ≤ 12 ∧ 1 ≤ dd ∧ dd ≤ daysInMonth yy mm) :
    replay ⟨⟨yy, mm, dd⟩, true, DatePart.day, []⟩
      ((natToDigits2 dd).map KeyCode.char)
      = ⟨⟨yy, mm, dd⟩, true, DatePart.day, []⟩ := by
  have hdle : dd ≤ 99 := by
    have := daysInMonth_le yy mm
    omega
  have h1 : dd / 10 % 10 < 10 := Nat.mod_lt _ (by norm_num)
  have h2 : dd % 10 < 10 := Nat.mod_lt _ (by norm_num)
  have hp2 : parseU32 [natDigit (dd / 10 % 10), natDigit (dd % 10)] = some dd := by
    have h := parseU32_digits2 (n := dd) hdle
    rw [natToDigits2] at h
    exact h
  have hymd : fromYmdOpt yy mm dd = some ⟨yy, mm, dd⟩ := fromYmdOpt_valid hv
  simp [natToDigits2, replay, DateInputState.handle_input, DateInputState.commitDigit,
    natDigit_isDigit h1, natDigit_isDigit h2, hp2, hymd, hv.2.2.1, hv.2.2.2]

theorem replay_append (s : DateInputState) (ks1 ks2 : List KeyCode) :
    replay s (ks1 ++ ks2) = replay (replay s ks1) ks2 := by
  simp [replay, List.foldl_append]

/-- C8: for every valid date with year 1900–2100, `get_display_string`
while not editing renders `YYYY-MM-DD` (zero-padded parts), and
re-entering exactly those digits through the edit sub-machine (begin
edit at year, type the 4 year digits, advance, type the 2 month digits,
advance, type the 2 day digits) leaves the stored date equal to the
original; a day input of `29` for February is accepted for 2024 (leap)
and rejected for 2023. -/
theorem date_render_roundtrip (yy : Int) (mm dd : Nat)
    (hy1 : 1900 ≤ yy) (hy2 : yy ≤ 2100)
    (hv : 1 ≤ mm ∧ mm ≤ 12 ∧ 1 ≤ dd ∧ dd ≤ daysInMonth yy mm) :
    (DateInputState.new ⟨yy, mm, dd⟩).get_display_string
      = natToDigits4 yy.toNat ++ '-' :: natToDigits2 mm ++ '-' :: natToDigits2 dd ∧
    replay ((DateInputState.new ⟨yy, mm, dd⟩).toggle_editing)
        (((natToDigits4 yy.toNat).map KeyCode.char
            ++ KeyCode.right :: (natToDigits2 mm).map KeyCode.char)
          ++ KeyCode.right :: (natToDigits2 dd).map KeyCode.char)
      = ⟨⟨yy, mm, dd⟩, true, DatePart.day, []⟩ ∧
    (feb29 2024).date = ⟨2024, 2, 29⟩ ∧
    (feb29 2023).date = ⟨2023, 2, 1⟩ := by
  refine ⟨rfl, ?_, by decide, by decide⟩
  rw [show (DateInputState.new ⟨yy, mm, dd⟩).toggle_editing
      = (⟨⟨yy, mm, dd⟩, true, DatePart.year, []⟩ : DateInputState) from rfl]
  rw [replay_append, replay_append]
  rw [year_retype yy mm dd hy1 hy2 hv]
  rw [show replay (⟨⟨yy, mm, dd⟩, true, DatePart.year, []⟩ : DateInputState)
        (KeyCode.right :: (natToDigits2 mm).map KeyCode.char)
      = replay (⟨⟨yy, mm, dd⟩, true, DatePart.month, []⟩ : DateInputState)
        ((natToDigits2 mm).map KeyCode.char) from rfl]
  rw [month_retype yy mm dd hv]
  rw [show replay (⟨⟨yy, mm, dd⟩, true, DatePart.month, []⟩ : DateInputState)
        (KeyCode.right :: (natToDigits2 dd).map KeyCode.char)
      = replay (⟨⟨yy, mm, dd⟩, true, DatePart.day, []⟩ : DateInputState)
        ((natToDigits2 dd).map KeyCode.char) from rfl]
  rw [day_retype yy mm dd hv]

/-- Witness for C8 at 1999-12-31. -/
theorem date_render_roundtrip_witness :
    (DateInputState.new ⟨1999, 12, 31⟩).get_display_string
      = natToDigits4 (1999 : Int).toNat ++ '-' :: natToDigits2 12 ++ '-' :: natToDigits2 31 ∧
    replay ((DateInputState.new ⟨1999, 12, 31⟩).toggle_editing)
        (((natToDigits4 (1999 : Int).toNat).map KeyCode.char
            ++ KeyCode.right :: (natToDigits2 12).map KeyCode.char)
          ++ KeyCode.right :: (natToDigits2 31).map KeyCode.char)
      = ⟨⟨1999, 12, 31⟩, true, DatePart.day, []⟩ ∧
    (feb29 2024).date = ⟨2024, 2, 29⟩ ∧
    (feb29 2023).date = ⟨2023, 2, 1⟩ :=
  date_render_roundtrip 1999 12 31 (by norm_num) (by norm_num) (by decide)

end InvoiceManager
